import Mathlib

/-!
Verification of the trace-reconciliation and pre-state-derivation core of the
evm-tx-replay repository, as a shallow embedding in Lean 4.

The embedded code lives in `src/utils/eip3155_simple.py` (line parser and gas
reconciler), `src/utils/compare_traces.py` (trace comparator),
`src/utils/tools.py` (dict/list/statistics helpers) and
`src/utils/collect_pre.py` (pre-state walker and account resolver).

Modelling conventions:
* Python `dict`s are insertion-ordered association lists; assignment to an
  existing key updates the value in place (first matching entry), a new key is
  appended.  Lookup returns the first matching entry.
* Python unbounded integers are `Nat`/`Int`; hex strings produced by `hex()`
  are modelled by `pyHex`/`natHex`.
* Python regular-expression searches used by the line parser are specialised
  deterministic scanners: each pattern used in the source is free of
  backtracking ambiguity (every greedy class is disjoint from the literal that
  follows it), so `re.search` is exactly "leftmost position where the scan
  succeeds, maximal munch on each class".
* External collaborators (the `cast` subprocess, the Web3 RPC client and
  `Web3.to_checksum_address`) are parameters: RPC reads are oracles
  `String → Option _` where `none` models a raised exception.
-/

namespace TxReplay

/-! ### Association-list model of Python dicts -/

/-- Eager `Option` alternative: first result if present, else second.  Mirrors
"use the existing entry, else fall back". -/
def oor {α : Type} : Option α → Option α → Option α
  | some v, _ => some v
  | none, b => b

@[simp] theorem oor_some {α : Type} (v : α) (b : Option α) : oor (some v) b = some v := rfl

@[simp] theorem oor_none {α : Type} (b : Option α) : oor none b = b := rfl

theorem oor_assoc {α : Type} (a b c : Option α) : oor (oor a b) c = oor a (oor b c) := by
  cases a <;> rfl

@[simp] theorem oor_none_right {α : Type} (a : Option α) : oor a none = a := by
  cases a <;> rfl

/-- Python `d[k]` / `d.get(k)`: value of the first entry with key `k`. -/
def alookup {α β : Type} [DecidableEq α] (d : List (α × β)) (k : α) : Option β :=
  (d.find? (fun p => p.1 = k)).map (fun p => p.2)

/-- Python in-place update `d[k] = v` for a key already present: replace the
value of the first entry with key `k`, keeping its position. -/
def dupdate {α β : Type} [DecidableEq α] : List (α × β) → α → β → List (α × β)
  | [], _, _ => []
  | p :: ps, k, v => if p.1 = k then (p.1, v) :: ps else p :: dupdate ps k v

/-- Python `d[k] = v`: update in place when `k` is present, else append. -/
def dinsert {α β : Type} [DecidableEq α] (d : List (α × β)) (k : α) (v : β) : List (α × β) :=
  match alookup d k with
  | some _ => dupdate d k v
  | none => d ++ [(k, v)]

/-- Append an element unless already present (`if v not in l: l.append(v)`). -/
def addUnique {α : Type} [DecidableEq α] (l : List α) (v : α) : List α :=
  if v ∈ l then l else l ++ [v]

/-- Left fold of `addUnique`: keeps the first occurrence of each element, in
order.  Used to model Python's `list(set(...))` (whose iteration order is
unspecified; only membership is relied upon downstream) and the
append-if-absent loops. -/
def dedupFirst {α : Type} [DecidableEq α] (l : List α) : List α :=
  l.foldl addUnique []

@[simp] theorem alookup_nil {α β : Type} [DecidableEq α] (k : α) :
    alookup ([] : List (α × β)) k = none := rfl

theorem alookup_cons {α β : Type} [DecidableEq α] (p : α × β) (d : List (α × β)) (k : α) :
    alookup (p :: d) k = if p.1 = k then some p.2 else alookup d k := by
  by_cases h : p.1 = k <;> simp [alookup, List.find?_cons, h]

theorem alookup_append {α β : Type} [DecidableEq α] (d₁ d₂ : List (α × β)) (k : α) :
    alookup (d₁ ++ d₂) k = oor (alookup d₁ k) (alookup d₂ k) := by
  induction d₁ with
  | nil => simp
  | cons p ps ih =>
    rw [List.cons_append, alookup_cons, alookup_cons]
    by_cases h : p.1 = k <;> simp [h, ih]

theorem alookup_single {α β : Type} [DecidableEq α] (k k2 : α) (v : β) :
    alookup [(k2, v)] k = if k2 = k then some v else none := by
  simp [alookup_cons]

theorem alookup_dupdate {α β : Type} [DecidableEq α] (d : List (α × β)) (k : α) (v : β)
    (k2 : α) :
    alookup (dupdate d k v) k2 =
      if k2 = k ∧ (alookup d k).isSome then some v else alookup d k2 := by
  induction d with
  | nil => simp [dupdate]
  | cons p ps ih =>
    rw [dupdate]
    by_cases hpk : p.1 = k
    · subst hpk
      rw [if_pos rfl, alookup_cons, alookup_cons, alookup_cons]
      by_cases h2 : p.1 = k2
      · subst h2
        simp
      · have h2' : ¬ k2 = p.1 := fun h => h2 h.symm
        simp [h2, h2']
    · rw [if_neg hpk, alookup_cons, alookup_cons, ih, alookup_cons, if_neg hpk]
      by_cases h2 : p.1 = k2
      · have hk2k : ¬ (k2 = k) := fun h => hpk (h ▸ h2)
        simp [h2, hk2k]
      · simp [h2]

theorem alookup_dinsert {α β : Type} [DecidableEq α] (d : List (α × β)) (k : α) (v : β)
    (k2 : α) :
    alookup (dinsert d k v) k2 = if k2 = k then some v else alookup d k2 := by
  rw [dinsert]
  cases h : alookup d k with
  | some w =>
    rw [alookup_dupdate]
    by_cases h2 : k2 = k <;> simp [h2, h]
  | none =>
    rw [alookup_append, alookup_single]
    by_cases h2 : k2 = k
    · subst h2; simp [h]
    · have : ¬ k = k2 := fun hh => h2 hh.symm
      simp [h2, this]

/-! ### Python string and number helpers -/

/-- Whitespace characters stripped by Python's `str.strip()` (ASCII range). -/
def isPySpace (c : Char) : Bool :=
  c = ' ' ∨ c = '\t' ∨ c = '\n' ∨ c = '\x0d' ∨ c = '\x0b' ∨ c = '\x0c'

/-- Python `str.strip()` on a character list. -/
def pyStrip (l : List Char) : List Char :=
  ((l.dropWhile isPySpace).reverse.dropWhile isPySpace).reverse

/-- Python `str.lower()` (ASCII). -/
def pyLower (s : String) : String := String.mk (s.toList.map Char.toLower)

/-- Hex digit predicate of the (case-insensitive) `[0-9a-f]` class. -/
def isHexDigit (c : Char) : Bool :=
  c.isDigit ∨ ('a' ≤ c ∧ c ≤ 'f') ∨ ('A' ≤ c ∧ c ≤ 'F')

/-- Value of one hex digit. -/
def hexVal (c : Char) : Nat :=
  if c.isDigit then c.toNat - 48
  else if 'a' ≤ c ∧ c ≤ 'f' then c.toNat - 87
  else if 'A' ≤ c ∧ c ≤ 'F' then c.toNat - 55
  else 0

/-- Decimal digits to a natural number. -/
def digitsToNat (l : List Char) : Nat :=
  l.foldl (fun a c => a * 10 + (c.toNat - 48)) 0

/-- Python `int(s, 16)` applied to a group always of shape `0x`/`0X` followed
by hex digits: drop the prefix and fold. -/
def hexGroupToNat (l : List Char) : Nat :=
  (l.drop 2).foldl (fun a c => a * 16 + hexVal c) 0

/-- `int(s, 16)` on a `0x`-prefixed hex string. -/
def gasOfHex (s : String) : Nat := hexGroupToNat s.toList

/-- Python `hex(n)` for `n ≥ 0`, without the `0x` prefix (lowercase). -/
def natHex (n : Nat) : String := String.mk (Nat.toDigits 16 n)

/-- Python `hex(n)` for arbitrary integers (`hex(-5) = "-0x5"`). -/
def pyHex (n : Int) : String :=
  if n < 0 then "-0x" ++ natHex n.natAbs else "0x" ++ natHex n.toNat

/-- Digits-with-underscores tail of a Python integer literal: after the first
digit, single underscores may separate digit groups. -/
def pyDigitsTail : List Char → Bool
  | [] => true
  | '_' :: d :: rest => d.isDigit && pyDigitsTail rest
  | '_' :: [] => false
  | d :: rest => d.isDigit && pyDigitsTail rest

/-- A valid unsigned Python decimal integer literal body. -/
def pyDigitsOk : List Char → Bool
  | [] => false
  | d :: rest => d.isDigit && pyDigitsTail rest

/-- Parse the unsigned body of a Python decimal literal. -/
def pyIntDigits (l : List Char) : Option Nat :=
  if pyDigitsOk l then some (digitsToNat (l.filter (fun c => c ≠ '_'))) else none

/-- Python `int(s)` (base 10): strips whitespace, allows one sign, digits with
underscores.  `none` models a raised `ValueError`. -/
def pyInt (l : List Char) : Option Int :=
  match pyStrip l with
  | '+' :: rest => (pyIntDigits rest).map (fun n => (n : Int))
  | '-' :: rest => (pyIntDigits rest).map (fun n => -(n : Int))
  | rest => (pyIntDigits rest).map (fun n => (n : Int))

/-- Split a character list on commas (Python `str.split(",")`). -/
def splitComma : List Char → List (List Char)
  | [] => [[]]
  | c :: rest =>
    if c = ',' then [] :: splitComma rest
    else
      match splitComma rest with
      | [] => [[c]]
      | p :: ps => (c :: p) :: ps

/-- Case-sensitive literal match: if `key` is a prefix of the input, return the
remainder. -/
def dropPre : List Char → List Char → Option (List Char)
  | [], s => some s
  | _ :: _, [] => none
  | k :: ks, c :: cs => if c = k then dropPre ks cs else none

/-- Case-insensitive literal match (for patterns compiled with `re.IGNORECASE`). -/
def dropPreCI : List Char → List Char → Option (List Char)
  | [], s => some s
  | _ :: _, [] => none
  | k :: ks, c :: cs => if c.toLower = k.toLower then dropPreCI ks cs else none

/-- `re.search(key + r"(\d+)", line)`: leftmost occurrence of the literal `key`
followed by at least one digit; returns the maximal digit run. -/
def searchNatAfter (key : List Char) : List Char → Option Nat
  | [] => none
  | c :: cs =>
    match dropPre key (c :: cs) with
    | some r =>
      let ds := r.takeWhile Char.isDigit
      if ds.isEmpty then searchNatAfter key cs else some (digitsToNat ds)
    | none => searchNatAfter key cs

/-- `re.search(key + r"\s*(\d+)", line)`: as `searchNatAfter` but skipping
whitespace between the literal and the digits (used for `Data size:`). -/
def searchNatAfterWS (key : List Char) : List Char → Option Nat
  | [] => none
  | c :: cs =>
    match dropPre key (c :: cs) with
    | some r =>
      let ds := (r.dropWhile isPySpace).takeWhile Char.isDigit
      if ds.isEmpty then searchNatAfterWS key cs else some (digitsToNat ds)
    | none => searchNatAfterWS key cs

/-- `re.search(key + r"(0x[0-9a-f]+)", line, re.IGNORECASE)`: leftmost
case-insensitive occurrence of `key` followed by `0x` and at least one hex
digit; the group (with its original case) is returned. -/
def searchHexTok (key : List Char) : List Char → Option (List Char)
  | [] => none
  | c :: cs =>
    match dropPreCI key (c :: cs) with
    | some r =>
      match r with
      | z :: x :: r2 =>
        if z = '0' ∧ (x = 'x' ∨ x = 'X') then
          let ds := r2.takeWhile isHexDigit
          if ds.isEmpty then searchHexTok key cs else some (z :: x :: ds)
        else searchHexTok key cs
      | _ => searchHexTok key cs
    | none => searchHexTok key cs

/-- `re.search(r'OPCODE:\s*"[^"]+"\((\d+)\)', line)`: the numeric opcode in
parentheses after the quoted mnemonic. -/
def searchOpcodeNum : List Char → Option Nat
  | [] => none
  | c :: cs =>
    match dropPre ("OPCODE:".toList) (c :: cs) with
    | some r =>
      match (r.dropWhile isPySpace) with
      | '"' :: r2 =>
        match r2.span (fun d => d ≠ '"') with
        | (content, r3) =>
          match content, r3 with
          | _ :: _, '"' :: '(' :: r4 =>
            (match r4.span Char.isDigit with
             | (ds, r5) =>
               match ds, r5 with
               | _ :: _, ')' :: _ => some (digitsToNat ds)
               | _, _ => searchOpcodeNum cs)
          | _, _ => searchOpcodeNum cs
      | _ => searchOpcodeNum cs
    | none => searchOpcodeNum cs

/-- `re.search(r"Stack:\[([^\]]*)\]", line)`: the bracketed stack body. -/
def searchStackGroup : List Char → Option (List Char)
  | [] => none
  | c :: cs =>
    match dropPre ("Stack:[".toList) (c :: cs) with
    | some r =>
      match r.span (fun d => d ≠ ']') with
      | (content, r2) =>
        match r2 with
        | ']' :: _ => some content
        | _ => searchStackGroup cs
    | none => searchStackGroup cs

/-! ### Line Parser (`src/utils/eip3155_simple.py`, `parse_trace_line`) -/

/-- One parsed textual trace step (the dict returned by `parse_trace_line`).
`gas` keeps the matched hex group verbatim, as in the source. -/
structure ParsedStep where
  depth : Nat
  pc : Nat
  gas : String
  op : Nat
  refund : Nat
  stack : List String
  memSize : Nat
deriving Repr, DecidableEq

/-- `hex(int(s.strip())) for s in stack_str.split(",") if s.strip()`, where a
failing `int()` raises and makes the whole line unparseable (`none`). -/
def parseStackItems (content : List Char) : Option (List String) :=
  let s := pyStrip content
  if s.isEmpty then some []
  else
    ((splitComma s).filter (fun p => ¬ (pyStrip p).isEmpty)).mapM
      (fun p => (pyInt (pyStrip p)).map pyHex)

/-- Stack extraction of `parse_trace_line`: a missing `Stack:[...]` group
yields the empty stack; a present group is item-parsed (and may raise). -/
def stack_group_result (l : List Char) : Option (List String) :=
  match searchStackGroup l with
  | some content => parseStackItems content
  | none => some []

/-- `parse_trace_line` from `src/utils/eip3155_simple.py`: parse one `cast -t`
text line into a step record, or `none` for a non-step line (also when the
stack items fail integer conversion, the only statement in the `try` block
that can raise). Every other field defaults when its pattern is absent. -/
def parse_trace_line (line : String) : Option ParsedStep :=
  let l := pyStrip line.toList
  if l = [] then none
  else if ¬ (("depth:".toList) <+: l) then none
  else
    match stack_group_result l with
    | none => none
    | some stack =>
      some { depth := (searchNatAfter ("depth:".toList) l).getD 1
             pc := (searchNatAfter ("PC:".toList) l).getD 0
             gas := match searchHexTok ("gas:".toList) l with
                    | some g => String.mk g
                    | none => "0x0"
             op := (searchOpcodeNum l).getD 0
             refund := match searchHexTok ("refund:".toList) l with
                       | some g => hexGroupToNat g
                       | none => 0
             stack := stack
             memSize := (searchNatAfterWS ("Data size:".toList) l).getD 0 }

/-! ### Arena Walker (`build_gas_lookup_from_arena`) -/

/-- One step record of the arena JSON, restricted to the fields the converter
reads (`depth, pc, op, stack, gas_remaining, gas_cost`). -/
structure ArenaStep where
  depth : Nat
  pc : Nat
  op : Nat
  stack : List String
  gas_remaining : Nat
  gas_cost : Nat
deriving Repr, DecidableEq

/-- The `trace` object of an arena node (`trace.steps`). -/
structure ArenaTrace where
  steps : List ArenaStep
deriving Repr, DecidableEq

/-- One arena node; `trace` is optional (`node.get("trace")`, skipped when
falsy). -/
structure ArenaNode where
  trace : Option ArenaTrace
deriving Repr, DecidableEq

/-- The step fingerprint `(depth, pc, op, stack_tuple)` keying both lookups. -/
abbrev Fp := Nat × Nat × Nat × List String

/-- Fingerprint of an arena step. -/
def fpOfArena (s : ArenaStep) : Fp := (s.depth, s.pc, s.op, s.stack)

/-- Fingerprint of a parsed textual step. -/
def fpOf (s : ParsedStep) : Fp := (s.depth, s.pc, s.op, s.stack)

/-- All steps of all nodes, in arena order (nodes without a trace skipped). -/
def arenaSteps (arena : List ArenaNode) : List ArenaStep :=
  arena.foldr (fun n acc => (match n.trace with | some t => t.steps | none => []) ++ acc) []

/-- The `gas_lookup` dict of `build_gas_lookup_from_arena`: fingerprint to
`gas_remaining`, later insertions overwriting earlier ones. -/
def gas_lookup (arena : List ArenaNode) (k : Fp) : Option Nat :=
  ((arenaSteps arena).reverse.find? (fun s => fpOfArena s = k)).map (fun s => s.gas_remaining)

/-- The `gas_cost_lookup` dict of `build_gas_lookup_from_arena`. -/
def gas_cost_lookup (arena : List ArenaNode) (k : Fp) : Option Nat :=
  ((arenaSteps arena).reverse.find? (fun s => fpOfArena s = k)).map (fun s => s.gas_cost)

/-! ### Gas Reconciler (`convert_trace_lines_to_eip3155`) -/

/-- One canonical EIP-3155 output step.  The source serialises `gas` and
`gasCost` through Python `hex()`; they are modelled by their integer values
(`gasCost` may be negative, `hex` would then emit a `-0x` string). The
`opName` field (only added for `include_opname=True`, the non-default; its
`OPCODE_MAP` module is not part of the sources) is not modelled. -/
structure Eip3155Step where
  pc : Nat
  op : Nat
  gas : Nat
  gasCost : Int
  memSize : Nat
  stack : List String
  depth : Nat
  refund : Nat
deriving Repr, DecidableEq

/-- `current_gas` of step `i`: the text value, replaced by the arena
`gas_remaining` when the depth decreased from the previous step and the
fingerprint is found. -/
def currentGasOf (ag : Fp → Option Nat) (prev? : Option ParsedStep) (s : ParsedStep) : Nat :=
  let g := gasOfHex s.gas
  match prev? with
  | none => g
  | some p => if s.depth < p.depth then (ag (fpOf s)).getD g else g

/-- `gas_cost` of step `i` given its corrected `current_gas` and the following
parsed step (if any). -/
def gasCostOf (ag agc : Fp → Option Nat) (cg : Nat) (s : ParsedStep) :
    Option ParsedStep → Int
  | none => 0
  | some n =>
    match (if n.depth < s.depth then agc (fpOf s) else none) with
    | some c => (c : Int)
    | none =>
      let ng := gasOfHex n.gas
      let ng := if n.depth < s.depth then (ag (fpOf n)).getD ng else ng
      (cg : Int) - (ng : Int)

/-- Emission of the canonical step at index `i` of the parsed list. -/
def emitStep (ag agc : Fp → Option Nat) (steps : List ParsedStep)
    (i : Fin steps.length) : Eip3155Step :=
  let s := steps.get i
  let prev? := if i.1 = 0 then none else steps.get? (i.1 - 1)
  let cg := currentGasOf ag prev? s
  { pc := s.pc
    op := s.op
    gas := cg
    gasCost := gasCostOf ag agc cg s (steps.get? (i.1 + 1))
    memSize := s.memSize
    stack := s.stack
    depth := s.depth
    refund := s.refund }

/-- Second pass of `convert_trace_lines_to_eip3155` over the already-parsed
steps, with arbitrary lookup indices (empty dicts are `fun _ => none`). -/
def convertParsed (ag agc : Fp → Option Nat) (steps : List ParsedStep) :
    List Eip3155Step :=
  List.ofFn (emitStep ag agc steps)

/-- `convert_trace_lines_to_eip3155` (with `include_opname=False`, the
default): parse every line, drop non-steps, then emit gas-corrected canonical
steps using the two arena lookups. -/
def convert_trace_lines_to_eip3155 (trace_lines : List String)
    (arena : List ArenaNode) : List Eip3155Step :=
  convertParsed (gas_lookup arena) (gas_cost_lookup arena)
    (trace_lines.filterMap parse_trace_line)

theorem convertParsed_get? (ag agc : Fp → Option Nat) (steps : List ParsedStep) (i : Nat) :
    (convertParsed ag agc steps).get? i =
      if h : i < steps.length then some (emitStep ag agc steps ⟨i, h⟩) else none := by
  rw [convertParsed, List.get?_ofFn]
  rfl

theorem emitStep_depth (ag agc : Fp → Option Nat) (steps : List ParsedStep)
    (i : Fin steps.length) : (emitStep ag agc steps i).depth = (steps.get i).depth := rfl

theorem emitStep_gas (ag agc : Fp → Option Nat) (steps : List ParsedStep)
    (i : Fin steps.length) :
    (emitStep ag agc steps i).gas =
      currentGasOf ag (if i.1 = 0 then none else steps.get? (i.1 - 1)) (steps.get i) := rfl

theorem emitStep_gasCost (ag agc : Fp → Option Nat) (steps : List ParsedStep)
    (i : Fin steps.length) :
    (emitStep ag agc steps i).gasCost =
      gasCostOf ag agc (emitStep ag agc steps i).gas (steps.get i)
        (steps.get? (i.1 + 1)) := rfl

/-- C1: for every list of textual trace lines and every arena, adjacent
canonical steps of `convert_trace_lines_to_eip3155` with equal depth satisfy
gas[i] - gasCost[i] = gas[i+1] (gas fields read as integers). -/
theorem c1_gas_continuity (trace_lines : List String) (arena : List ArenaNode)
    (i : Nat) (a b : Eip3155Step)
    (ha : (convert_trace_lines_to_eip3155 trace_lines arena).get? i = some a)
    (hb : (convert_trace_lines_to_eip3155 trace_lines arena).get? (i + 1) = some b)
    (hd : a.depth = b.depth) :
    (a.gas : Int) - a.gasCost = (b.gas : Int) := by
  rw [convert_trace_lines_to_eip3155, convertParsed_get?] at ha hb
  by_cases h2 : i + 1 < (trace_lines.filterMap parse_trace_line).length
  · have h1 : i < (trace_lines.filterMap parse_trace_line).length := Nat.lt_of_succ_lt h2
    rw [dif_pos h1] at ha
    rw [dif_pos h2] at hb
    have ha' := (Option.some.injEq _ _).mp ha
    have hb' := (Option.some.injEq _ _).mp hb
    subst ha'
    subst hb'
    set steps := trace_lines.filterMap parse_trace_line with hsteps
    have hget : steps.get? (i + 1) = some (steps.get ⟨i + 1, h2⟩) := List.get?_eq_get h2
    have hdepth : (steps.get ⟨i, h1⟩).depth = (steps.get ⟨i + 1, h2⟩).depth := by
      rw [emitStep_depth, emitStep_depth] at hd
      exact hd
    have hnotlt : ¬ (steps.get ⟨i + 1, h2⟩).depth < (steps.get ⟨i, h1⟩).depth := by
      rw [hdepth]
      exact lt_irrefl _
    rw [emitStep_gasCost, emitStep_gas]
    rw [hget]
    rw [gasCostOf]
    rw [if_neg hnotlt]
    have hbgas : (emitStep (gas_lookup arena) (gas_cost_lookup arena) steps ⟨i + 1, h2⟩).gas =
        gasOfHex (steps.get ⟨i + 1, h2⟩).gas := by
      rw [emitStep_gas]
      have : (i + 1) - 1 = i := rfl
      rw [if_neg (Nat.succ_ne_zero i), this, List.get?_eq_get h1]
      rw [currentGasOf]
      simp only [if_neg hnotlt]
    rw [hbgas]
    simp only [if_neg hnotlt]
    omega
  · rw [dif_neg h2] at hb
    exact absurd hb (by simp)

/-- C1 witness at a concrete two-line trace with empty arena. -/
theorem c1_gas_continuity_witness :
    ((convert_trace_lines_to_eip3155 ["depth:1, gas:0x10", "depth:1, gas:0xa"] []).get? 0).map
        (fun a => (a.gas : Int) - a.gasCost) =
      ((convert_trace_lines_to_eip3155 ["depth:1, gas:0x10", "depth:1, gas:0xa"] []).get? 1).map
        (fun b => (b.gas : Int)) := by
  have ha : (convert_trace_lines_to_eip3155 ["depth:1, gas:0x10", "depth:1, gas:0xa"] []).get? 0 =
      some { pc := 0, op := 0, gas := 16, gasCost := 6, memSize := 0, stack := [],
             depth := 1, refund := 0 } := by decide
  have hb : (convert_trace_lines_to_eip3155 ["depth:1, gas:0x10", "depth:1, gas:0xa"] []).get? 1 =
      some { pc := 0, op := 0, gas := 10, gasCost := 0, memSize := 0, stack := [],
             depth := 1, refund := 0 } := by decide
  rw [ha, hb, Option.map, Option.map]
  exact congrArg some (c1_gas_continuity _ _ 0 _ _ ha hb rfl)

/-- C2: a parsed step whose depth decreased from the previous parsed step is
emitted with the arena `gas_remaining` for its fingerprint when present, and
with the text-reported gas value otherwise (`Option.getD` covers both). -/
theorem c2_frame_boundary_gas (trace_lines : List String) (arena : List ArenaNode)
    (i : Nat) (s p : ParsedStep) (o : Eip3155Step)
    (hi : 0 < i)
    (hs : (trace_lines.filterMap parse_trace_line).get? i = some s)
    (hp : (trace_lines.filterMap parse_trace_line).get? (i - 1) = some p)
    (hd : s.depth < p.depth)
    (ho : (convert_trace_lines_to_eip3155 trace_lines arena).get? i = some o) :
    o.gas = (gas_lookup arena (fpOf s)).getD (gasOfHex s.gas) := by
  rw [convert_trace_lines_to_eip3155, convertParsed_get?] at ho
  set steps := trace_lines.filterMap parse_trace_line with hsteps
  by_cases h1 : i < steps.length
  · rw [dif_pos h1] at ho
    have ho' := (Option.some.injEq _ _).mp ho
    subst ho'
    have hsget : steps.get ⟨i, h1⟩ = s := by
      rw [List.get?_eq_get h1] at hs
      exact (Option.some.injEq _ _).mp hs
    rw [emitStep_gas, if_neg (Nat.pos_iff_ne_zero.mp hi), hp, hsget, currentGasOf]
    simp only [if_pos hd]
  · rw [dif_neg h1] at ho
    exact absurd ho (by simp)

/-- Concrete two-line trace whose second line has decreased depth. -/
def c2Lines : List String := ["depth:2, gas:0x10", "depth:1, PC:3, gas:0x5"]

/-- Concrete one-node arena holding the corrected gas for the return step. -/
def c2Arena : List ArenaNode := [⟨some ⟨[⟨1, 3, 0, [], 7, 2⟩]⟩⟩]

/-- C2 witness: the text reports gas 5 at the depth-decrease step, the arena
says 7, and the canonical output carries 7. -/
theorem c2_frame_boundary_gas_witness :
    ((convert_trace_lines_to_eip3155 c2Lines c2Arena).get? 1).map (fun o => o.gas) =
      some ((gas_lookup c2Arena (fpOf ⟨1, 3, "0x5", 0, 0, [], 0⟩)).getD
        (gasOfHex "0x5")) := by
  have hs : (c2Lines.filterMap parse_trace_line).get? 1 =
      some ⟨1, 3, "0x5", 0, 0, [], 0⟩ := by decide
  have hp : (c2Lines.filterMap parse_trace_line).get? 0 =
      some ⟨2, 0, "0x10", 0, 0, [], 0⟩ := by decide
  have ho : (convert_trace_lines_to_eip3155 c2Lines c2Arena).get? 1 =
      some ⟨3, 0, 7, 0, 0, [], 1, 0⟩ := by decide
  rw [ho, Option.map]
  exact congrArg some
    (c2_frame_boundary_gas _ _ 1 _ _ _ (by decide) hs hp (by decide) ho)

/-- C3: the reconciler emits exactly one canonical step per parsed step, in
order, copying pc/op/memSize/stack/depth/refund; a gas-remaining lookup miss
leaves the text gas value; the final step gets gasCost 0.  Stated for
arbitrary (possibly empty) lookup indices. -/
theorem c3_reconciler_totality (ag agc : Fp → Option Nat) (steps : List ParsedStep) :
    (convertParsed ag agc steps).length = steps.length ∧
    ((convertParsed ag agc steps).map (fun o => o.pc) = steps.map (fun s => s.pc) ∧
     (convertParsed ag agc steps).map (fun o => o.op) = steps.map (fun s => s.op) ∧
     (convertParsed ag agc steps).map (fun o => o.memSize) = steps.map (fun s => s.memSize) ∧
     (convertParsed ag agc steps).map (fun o => o.stack) = steps.map (fun s => s.stack) ∧
     (convertParsed ag agc steps).map (fun o => o.depth) = steps.map (fun s => s.depth) ∧
     (convertParsed ag agc steps).map (fun o => o.refund) = steps.map (fun s => s.refund)) ∧
    (∀ j s o, steps.get? j = some s →
      (convertParsed ag agc steps).get? j = some o →
      ag (fpOf s) = none → o.gas = gasOfHex s.gas) ∧
    (∀ o, (convertParsed ag agc steps).get? (steps.length - 1) = some o → o.gasCost = 0) := by
  have hmap : ∀ {γ : Type} (g : Eip3155Step → γ) (g' : ParsedStep → γ)
      (hfield : ∀ i : Fin steps.length, g (emitStep ag agc steps i) = g' (steps.get i)),
      (convertParsed ag agc steps).map g = steps.map g' := by
    intro γ g g' hfield
    rw [convertParsed, List.map_ofFn]
    conv_rhs => rw [← List.ofFn_get steps, List.map_ofFn]
    exact congrArg List.ofFn (funext fun i => hfield i)
  refine ⟨by rw [convertParsed, List.length_ofFn], ⟨?_, ?_, ?_, ?_, ?_, ?_⟩, ?_, ?_⟩
  · exact hmap _ _ (fun i => rfl)
  · exact hmap _ _ (fun i => rfl)
  · exact hmap _ _ (fun i => rfl)
  · exact hmap _ _ (fun i => rfl)
  · exact hmap _ _ (fun i => rfl)
  · exact hmap _ _ (fun i => rfl)
  · intro j s o hs ho hmiss
    rw [convertParsed_get?] at ho
    by_cases hj : j < steps.length
    · rw [dif_pos hj] at ho
      have ho' := (Option.some.injEq _ _).mp ho
      subst ho'
      have hsget : steps.get ⟨j, hj⟩ = s := by
        rw [List.get?_eq_get hj] at hs
        exact (Option.some.injEq _ _).mp hs
      rw [emitStep_gas, hsget]
      cases hpv : (if j = 0 then none else steps.get? (j - 1)) with
      | none => rfl
      | some p =>
        rw [currentGasOf]
        by_cases hlt : s.depth < p.depth
        · simp only [if_pos hlt, hmiss, Option.getD_none]
        · simp only [if_neg hlt]
    · rw [dif_neg hj] at ho
      exact absurd ho (by simp)
  · intro o ho
    rw [convertParsed_get?] at ho
    by_cases hj : steps.length - 1 < steps.length
    · rw [dif_pos hj] at ho
      have ho' := (Option.some.injEq _ _).mp ho
      subst ho'
      have hlen : 0 < steps.length := by omega
      have hnone : steps.get? (steps.length - 1 + 1) = none := by
        rw [List.get?_eq_none]
        omega
      rw [emitStep_gasCost, hnone]
      rfl
    · rw [dif_neg hj] at ho
      exact absurd ho (by simp)

/-- C3 witness at a singleton parsed list with empty lookups: the sole output
step (no following step) carries gasCost 0. -/
theorem c3_reconciler_totality_witness :
    ((convertParsed (fun _ => none) (fun _ => none)
        [{ depth := 1, pc := 0, gas := "0x05", op := 0, refund := 0, stack := [],
           memSize := 0 }]).get? 0).map (fun o => o.gasCost) = some 0 := by
  cases hx : (convertParsed (fun _ => none) (fun _ => none)
      [{ depth := 1, pc := 0, gas := "0x05", op := 0, refund := 0, stack := [],
         memSize := 0 }]).get? 0 with
  | none => exact absurd hx (by decide)
  | some o =>
    rw [Option.map]
    exact congrArg some
      ((c3_reconciler_totality (fun _ => none) (fun _ => none)
          [{ depth := 1, pc := 0, gas := "0x05", op := 0, refund := 0, stack := [],
             memSize := 0 }]).2.2.2 o hx)

/-- C4 counterexample: the line `depth:1` has no PC and no gas field, yet the
parser emits a record (with defaulted pc 0 and gas "0x0") instead of the
"not a step" result the claim requires for lines lacking required fields. -/
theorem c4_counterexample :
    parse_trace_line ("depth:1") =
      some { depth := 1, pc := 0, gas := "0x0", op := 0, refund := 0, stack := [],
             memSize := 0 } ∧
    searchNatAfter ("PC:".toList) (pyStrip (("depth:1").toList)) = none ∧
    searchHexTok ("gas:".toList) (pyStrip (("depth:1").toList)) = none := by
  exact ⟨by decide, by decide, by decide⟩

/-- C4 (amended): the parser returns "not a step" exactly when the stripped
line is empty, does not begin with `depth:`, or its `Stack:[...]` group
contains an item that is not a valid integer literal; in every other case a
complete record is emitted, with absent fields replaced by fixed defaults
rather than causing rejection. -/
theorem c4_parser_none_characterisation (line : String) :
    (parse_trace_line line).isSome ↔
      (¬ pyStrip line.toList = [] ∧
       (("depth:".toList) <+: pyStrip line.toList) ∧
       (stack_group_result (pyStrip line.toList)).isSome = true) := by
  rw [parse_trace_line]
  split
  · rename_i h1
    simp_all
  · rename_i h1
    split
    · rename_i h2
      simp_all
    · rename_i h2
      split
      · rename_i h3
        simp_all
      · rename_i st h3
        simp_all

/-- C8: the spec's example line parses to exactly the stated record. -/
theorem c8_example_line_parse :
    parse_trace_line
        ("depth:1, PC:0, gas:0x89f5(35317), OPCODE: \"PUSH1\"(96)  refund:0x0(0) Stack:[], Data size:0") =
      some { depth := 1, pc := 0, gas := "0x89f5", op := 96, refund := 0, stack := [],
             memSize := 0 } := by
  decide

/-! ### Trace comparator (`src/utils/compare_traces.py`) -/

/-- A JSON scalar as read from a canonical trace file: a string or an
integer (the only value shapes `normalize_value` distinguishes; other JSON
values fall back to `str(value).lower()` and do not occur in trace files). -/
inductive JVal where
  | s (v : String)
  | n (v : Int)
deriving Repr, DecidableEq

/-- `normalize_value`: hex strings are lowercased, decimal strings and
integers are converted through `hex()`, anything else is lowercased. -/
def normalize_value : JVal → String
  | .s v =>
    if ("0x".toList).isPrefixOf v.toList then pyLower v
    else
      match pyInt v.toList with
      | some k => pyHex k
      | none => pyLower v
  | .n v => pyHex v

/-- `normalize_stack`: normalize every stack entry. -/
def normalize_stack (stack : List JVal) : List String :=
  stack.map normalize_value

/-- One trace step as read from a canonical trace file, restricted to the
keys `compare_traces` reads (each may be absent: `trace.get(key, default)`). -/
structure CmpStep where
  pc : Option JVal := none
  op : Option JVal := none
  gas : Option JVal := none
  stack : Option (List JVal) := none
deriving Repr, DecidableEq

/-- `compare_traces`: compare two canonical steps, returning
`(matches, error_message, gas_mismatch)`.  The source interpolates the
differing values into the message; only the message head is modelled. -/
def compare_traces (t1 t2 : CmpStep) (skip_gas : Bool) : Bool × String × Bool :=
  if ¬ normalize_value (t1.pc.getD (JVal.n 0)) = normalize_value (t2.pc.getD (JVal.n 0)) then
    (false, "PC mismatch", false)
  else if ¬ normalize_value (t1.op.getD (JVal.n 0)) = normalize_value (t2.op.getD (JVal.n 0)) then
    (false, "Opcode mismatch", false)
  else
    let gm : Bool :=
      ¬ normalize_value (t1.gas.getD (JVal.s "0x0")) = normalize_value (t2.gas.getD (JVal.s "0x0"))
    if gm ∧ ¬ skip_gas then (false, "Gas mismatch", gm)
    else if ¬ normalize_stack (t1.stack.getD []) = normalize_stack (t2.stack.getD []) then
      (false, "Stack mismatch", gm)
    else (true, "", gm)

/-- C9: comparing any canonical step against itself matches, with empty error
message and no gas mismatch, for either value of `skip_gas`; comparing a
trace file against itself therefore reports no mismatch at any index. -/
theorem c9_comparator_reflexive (s : CmpStep) (skip_gas : Bool) :
    compare_traces s s skip_gas = (true, "", false) := by
  simp [compare_traces]

/-! ### Statistics helper (`src/utils/tools.py`, `get_statistics`) -/

/-- A Python value sampled into a statistics list: a number (numeric values
are modelled as integers; the guard treats `int` and `float` alike) or any
non-numeric value. -/
inductive PyVal where
  | num (n : Int)
  | other
deriving Repr, DecidableEq

/-- Sum of a list of integers (`sum(numbers)`). -/
def list_sum (l : List Int) : Int := l.foldl (· + ·) 0

/-- Minimum (`min(numbers)`), 0 on the empty list (unreachable: the source
only evaluates it on non-empty input). -/
def list_min : List Int → Int
  | [] => 0
  | x :: xs => xs.foldl min x

/-- Maximum (`max(numbers)`). -/
def list_max : List Int → Int
  | [] => 0
  | x :: xs => xs.foldl max x

/-- Insertion into a sorted list, keeping ascending order. -/
def insertSorted (x : Int) : List Int → List Int
  | [] => [x]
  | y :: ys => if x ≤ y then x :: y :: ys else y :: insertSorted x ys

/-- Python `sorted(numbers)` (ascending). -/
def sortInts (l : List Int) : List Int := l.foldr insertSorted []

/-- `statistics.mean`: exact rational mean. -/
def ratMean (l : List Int) : Rat := (list_sum l : Rat) / (l.length : Rat)

/-- `statistics.median`: middle element, or mean of the two middles. -/
def ratMedian (l : List Int) : Rat :=
  let s := sortInts l
  let n := s.length
  if n = 0 then 0
  else if n % 2 = 1 then ((s.getD (n / 2) 0 : Int) : Rat)
  else (((s.getD (n / 2 - 1) 0 + s.getD (n / 2) 0 : Int) : Rat)) / 2

/-- `statistics.mode`: the first value of maximal multiplicity, in data
order. -/
def listMode (l : List Int) : Option Int :=
  l.find? (fun x => l.all (fun y => l.count y ≤ l.count x))

/-- `statistics.variance`: sample variance (denominator `n - 1`). -/
def ratVariance (l : List Int) : Rat :=
  let m := ratMean l
  (l.foldl (fun acc x => acc + ((x : Rat) - m) ^ 2) 0) / ((l.length : Rat) - 1)

/-- The summary dict built by `get_statistics`.  Python's
`"Standard Deviation"` entry is `sqrt` of the variance, a float with no exact
rational representation; it is recorded squared (`stdevSq`), which carries the
same information. -/
structure StatsSummary where
  mean : Rat
  median : Rat
  mode : Option Int
  stdevSq : Rat
  variance : Rat
  range : Int
  minimum : Int
  maximum : Int
  q1 : Rat
  q3 : Rat
  count : Nat
  sum : Int
deriving Repr, DecidableEq

/-- `get_statistics` from `src/utils/tools.py`: `none` models the empty dict
`{}` returned for an empty list or one containing a non-numeric value.  With
only integer inputs no statement in the `try` block can raise, so the
`except` branch is unreachable in the model. -/
def get_statistics (numbers : List PyVal) : Option StatsSummary :=
  if numbers.length = 0 then none
  else if ¬ numbers.all (fun v => match v with | .num _ => true | .other => false) then none
  else
    let ns : List Int := numbers.filterMap (fun v => match v with | .num n => some n | .other => none)
    some { mean := ratMean ns
           median := if ns.length > 1 then ratMedian ns else ((ns.headD 0 : Int) : Rat)
           mode := if (dedupFirst ns).length < ns.length then listMode ns else none
           stdevSq := if ns.length > 1 then ratVariance ns else 0
           variance := if ns.length > 1 then ratVariance ns else 0
           range := list_max ns - list_min ns
           minimum := list_min ns
           maximum := list_max ns
           q1 := if ns.length > 1 then ratMedian ((sortInts ns).take (ns.length / 2))
                 else ((ns.headD 0 : Int) : Rat)
           q3 := if ns.length > 1 then ratMedian ((sortInts ns).drop ((ns.length + 1) / 2))
                 else ((ns.headD 0 : Int) : Rat)
           count := ns.length
           sum := list_sum ns }

/-- C10: a non-empty list containing a non-numeric element yields the empty
summary, exactly as the empty list does, instead of an exception or a partial
summary. -/
theorem c10_stats_non_numeric (l : List PyVal) (hne : l ≠ []) (hother : PyVal.other ∈ l) :
    get_statistics l = none ∧ get_statistics l = get_statistics [] := by
  have hguard : ¬ l.all (fun v => match v with | .num _ => true | .other => false) := by
    intro hall
    have := List.all_eq_true.mp hall PyVal.other hother
    simp at this
  have hlen : ¬ l.length = 0 := by
    intro h0
    exact hne (List.length_eq_zero.mp h0)
  constructor
  · rw [get_statistics, if_neg hlen, if_pos hguard]
  · rw [get_statistics, if_neg hlen, if_pos hguard]
    rfl

/-- C10 witness at the concrete list `[1, <non-numeric>]`. -/
theorem c10_stats_non_numeric_witness :
    get_statistics [PyVal.num 1, PyVal.other] = none ∧
    get_statistics [PyVal.num 1, PyVal.other] = get_statistics [] :=
  c10_stats_non_numeric [PyVal.num 1, PyVal.other] (by decide) (by decide)

/-! ### Pre-State Walker and Account State Resolver (`src/utils/collect_pre.py`)

The `cast` subprocess output (`cast_trace_run`) is the `trace_list` parameter;
the Web3 RPC reads are oracles where `none` models a raised exception, and
`Web3.to_checksum_address` is an abstract total function parameter. -/

/-- `make_hex_even` on a string: drop the first two characters (the `0x`
prefix), left-pad to even length, re-prefix. -/
def make_hex_even (v : String) : String :=
  let h := v.toList.drop 2
  String.mk ('0' :: 'x' :: (if h.length % 2 = 1 then '0' :: h else h))

/-- `make_hex_even` on an integer value: `hex(value)[2:]`, even-padded. -/
def make_hex_even_nat (n : Nat) : String :=
  let h := Nat.toDigits 16 n
  String.mk ('0' :: 'x' :: (if h.length % 2 = 1 then '0' :: h else h))

/-- One explicit `storage_change` annotation.  The source reads only `key` and
`had_value`; `new_value` participates in the record equality used by
`add_to_dict`'s duplicate check. -/
structure SChange where
  key : String
  had_value : String
  new_value : String
deriving Repr, DecidableEq

/-- One arena step as read by the pre-state walker (`contract, op, stack,
storage_change`). -/
structure PStep where
  contract : String
  op : Nat
  stack : List String
  storage_change : Option SChange
deriving Repr, DecidableEq

/-- The `trace` object of a node as read by `collect_from_steps`. -/
structure PTrace where
  steps : List PStep
  caller : String
  address : String
deriving Repr, DecidableEq

/-- One node of the `cast` arena list for pre-state collection. -/
structure PreNode where
  idx : Nat
  trace : PTrace
deriving Repr, DecidableEq

/-- `is_address`: a `0x`-prefixed string of total length 42. -/
def is_address (evm_str : String) : Bool :=
  (("0x".toList).isPrefixOf evm_str.toList) ∧ evm_str.toList.length = 42

/-- `find_address_in_list`: the address-shaped stack entries, first occurrence
order, duplicates dropped. -/
def find_address_in_list (stack_list : List String) : List String :=
  stack_list.foldl (fun acc e => if is_address e ∧ ¬ e ∈ acc then acc ++ [e] else acc) []

/-- `strict_extend`: extend then `list(set(...))`.  Python's set iteration
order is unspecified; it is modelled as first-occurrence order, and no result
below depends on the order, only on membership. -/
def strict_extend (l1 l2 : List String) : List String := dedupFirst (l1 ++ l2)

/-- `add_to_dict`: append `v` to the list at `k`, creating the entry if
absent and skipping exact duplicates. -/
def add_to_dict {β : Type} [DecidableEq β] (d : List (String × List β)) (k : String)
    (v : β) : List (String × List β) :=
  match alookup d k with
  | none => d ++ [(k, [v])]
  | some cur => if v ∈ cur then d else dupdate d k (cur ++ [v])

/-- `extend_dict`: merge `value_dict` into the entry at `key`, never changing
the value of an existing inner key. -/
def extend_dict (d : List (String × List (String × String))) (key : String)
    (value_dict : List (String × String)) : List (String × List (String × String)) :=
  match alookup d key with
  | none => d ++ [(key, value_dict)]
  | some cur =>
    dupdate d key
      (value_dict.foldl (fun c p => if (alookup c p.1).isSome then c else c ++ [p]) cur)

/-- `hex(step["op"])[2:].upper()`. -/
def opHexUpper (n : Nat) : String := String.mk ((Nat.toDigits 16 n).map Char.toUpper)

/-- Python `list[-1]`; `none` models the `IndexError` raised on an empty
list. -/
def pyLast {α : Type} : List α → Option α
  | [] => none
  | [x] => some x
  | _ :: x :: xs => pyLast (x :: xs)

/-- Per-node contract-to-change-list dict type. -/
abbrev SCDict := List (String × List SChange)

/-- Contract-to-inferred (slot, value) observations dict type. -/
abbrev SecDict := List (String × List (String × String))

/-- Address-list update of one `collect_state_changes` step: always add the
step's contract; for call-family opcodes also add address-shaped stack
entries. -/
def scs_addrs (al : List String) (st : PStep) : List String :=
  let addrs := strict_extend al [st.contract]
  if opHexUpper st.op = "F1" ∨ opHexUpper st.op = "F2" ∨ opHexUpper st.op = "F4" ∨
      opHexUpper st.op = "FA" then
    strict_extend addrs (find_address_in_list st.stack)
  else addrs

/-- Explicit-change-dict update of one step: record the step's
`storage_change`, if any, under its contract. -/
def scs_scd (scd : SCDict) (st : PStep) : SCDict :=
  match st.storage_change with
  | some sc => add_to_dict scd st.contract sc
  | none => scd

/-- Loop body of `collect_state_changes` over a node's steps, threading the
address list, the explicit-change dict and the inferred-observation dict.
`none` propagates the `IndexError` of `stack[-1]` on an empty stack. -/
def collect_scs_go (acc : List String × SCDict × SecDict) :
    List PStep → Option (List String × SCDict × SecDict)
  | [] => some acc
  | st :: rest =>
    if opHexUpper st.op = "54" ∨ opHexUpper st.op = "55" then
      match rest with
      | [] => collect_scs_go (scs_addrs acc.1 st, scs_scd acc.2.1 st, acc.2.2) rest
      | nx :: _ =>
        match pyLast st.stack, pyLast nx.stack with
        | some a, some b =>
          collect_scs_go
            (scs_addrs acc.1 st, scs_scd acc.2.1 st, add_to_dict acc.2.2 st.contract (a, b)) rest
        | _, _ => none
    else collect_scs_go (scs_addrs acc.1 st, scs_scd acc.2.1 st, acc.2.2) rest

/-- `collect_state_changes`: one pass over a node's steps. -/
def collect_state_changes (steps : List PStep) : Option (List String × SCDict × SecDict) :=
  collect_scs_go ([], [], []) steps

/-- `collect_address`: union (as `strict_extend`) of the per-node address
lists, in dict order. -/
def collect_address (trace_address_dict : List (Nat × List String)) : List String :=
  trace_address_dict.foldl (fun al p => strict_extend al p.2) []

/-- `get_all_keys`: per (node, contract), first occurrence of each normalized
key wins; values are the normalized `had_value`s. -/
def get_all_keys (storage_list : List SChange) : List (String × String) :=
  storage_list.foldl
    (fun kd sc =>
      if (alookup kd (make_hex_even sc.key)).isSome then kd
      else kd ++ [(make_hex_even sc.key, make_hex_even sc.had_value)]) []

/-- `get_storage_keys`: fold the per-node dicts into the global storage dict,
outer-to-inner, via `extend_dict` (existing slots never overwritten). -/
def get_storage_keys (trace_storage_dict : List (Nat × SCDict)) :
    List (String × List (String × String)) :=
  trace_storage_dict.foldl
    (fun sd p => p.2.foldl (fun sd2 q => extend_dict sd2 q.1 (get_all_keys q.2)) sd) []

/-- Loop body of `collect_from_steps` over one node: run
`collect_state_changes`, extend the address list with the lower-cased caller
and callee, key both per-node results by `idx`, and merge the inferred
observations into the global `second_dict`. -/
def cfs_node_fold (acc : List (Nat × List String) × List (Nat × SCDict) × SecDict)
    (element : PreNode) :
    Option (List (Nat × List String) × List (Nat × SCDict) × SecDict) :=
  match collect_state_changes element.trace.steps with
  | none => none
  | some (al, scd, ssd) =>
    let al := strict_extend al [pyLower element.trace.caller, pyLower element.trace.address]
    let tad := dinsert acc.1 element.idx al
    let tsd := dinsert acc.2.1 element.idx scd
    let sd := ssd.foldl (fun sd2 p => p.2.foldl (fun sd3 v => add_to_dict sd3 p.1 v) sd2) acc.2.2
    some (tad, tsd, sd)

/-- `collect_from_steps`: walk every node, building the address dict, the
storage dict and the inferred-observation dict, then summarize. -/
def collect_from_steps (json_output : List PreNode) :
    Option (List String × List (String × List (String × String)) × SecDict) :=
  (json_output.foldlM cfs_node_fold ([], [], [])).map
    (fun acc => (collect_address acc.1, get_storage_keys acc.2.1, acc.2.2))

/-- `retrieve_balance`: `hex(w3.eth.get_balance(...))` even-padded, or the
`"0x00"` default on an RPC failure. -/
def retrieve_balance (bal : String → Option Nat) (contract_address : String) : String :=
  match bal contract_address with
  | some b => make_hex_even_nat b
  | none => "0x00"

/-- `retrieve_nonce`: even-padded hex transaction count, `"0x01"` on
failure. -/
def retrieve_nonce (nonceOf : String → Option Nat) (contract_address : String) : String :=
  match nonceOf contract_address with
  | some n => make_hex_even_nat n
  | none => "0x01"

/-- `retrieve_code`: `"0x" + bytecode.hex()` (the oracle returns the
`bytecode.hex()` digits), `"0x"` on failure. -/
def retrieve_code (codeOf : String → Option String) (contract_address : String) : String :=
  match codeOf contract_address with
  | some c => "0x" ++ c
  | none => "0x"

/-- One pre-state entry (`{balance, nonce, code, storage}`). -/
structure PreEntry where
  balance : String
  nonce : String
  code : String
  storage : List (String × String)
deriving Repr, DecidableEq

/-- Per-address loop body of `collect_pre`: explicit storage for the address,
account fields via the resolver, inferred observations filled for absent
slots only, then zero-string values pruned. -/
def pre_entry_for (checksum : String → String) (bal nonceOf : String → Option Nat)
    (codeOf : String → Option String)
    (storage_dict : List (String × List (String × String))) (second_dict : SecDict)
    (address : String) : PreEntry :=
  let storage := (alookup storage_dict address).getD []
  let checksum_address := checksum address
  let balance := retrieve_balance bal checksum_address
  let nonce := retrieve_nonce nonceOf checksum_address
  let code := retrieve_code codeOf checksum_address
  let storage :=
    match alookup second_dict address with
    | none => storage
    | some kvs =>
      kvs.foldl
        (fun st (kv : String × String) =>
          if (alookup st (make_hex_even kv.1)).isSome then st
          else st ++ [(make_hex_even kv.1, make_hex_even kv.2)]) storage
  let storage := storage.filter (fun p => ¬ p.2 = "0x00")
  { balance := balance, nonce := nonce, code := code, storage := storage }

/-- `collect_pre`: derive the pre-state mapping for one transaction.  The
`cast` trace is the `trace_list` parameter; the block number and RPC URL are
folded into the three per-address oracles. -/
def collect_pre (checksum : String → String) (bal nonceOf : String → Option Nat)
    (codeOf : String → Option String) (trace_list : List PreNode) :
    Option (List (String × PreEntry)) :=
  (collect_from_steps trace_list).map
    (fun t =>
      t.1.foldl
        (fun pre address =>
          dinsert pre address
            (pre_entry_for checksum bal nonceOf codeOf t.2.1 t.2.2 address))
        [])

/-! ### Dictionary and dedup lemmas used by the pre-state claims -/

theorem alookup_eq_none_iff {α β : Type} [DecidableEq α] (d : List (α × β)) (k : α) :
    alookup d k = none ↔ ¬ k ∈ d.map (fun p => p.1) := by
  rw [alookup, Option.map_eq_none', List.find?_eq_none]
  constructor
  · intro h hk
    rcases List.mem_map.mp hk with ⟨p, hp, hpk⟩
    exact absurd (decide_eq_true hpk) (h p hp)
  · intro h p hp
    intro hpk
    exact h (List.mem_map.mpr ⟨p, hp, of_decide_eq_true hpk⟩)

theorem alookup_isSome_iff {α β : Type} [DecidableEq α] (d : List (α × β)) (k : α) :
    (alookup d k).isSome ↔ k ∈ d.map (fun p => p.1) := by
  rcases h : alookup d k with _ | v
  · simp only [Option.isSome_none, Bool.false_eq_true, false_iff]
    exact (alookup_eq_none_iff d k).mp h
  · simp only [Option.isSome_some, true_iff]
    by_contra hk
    rw [(alookup_eq_none_iff d k).mpr hk] at h
    exact Option.noConfusion h

theorem alookup_mem {α β : Type} [DecidableEq α] {d : List (α × β)} {k : α} {v : β}
    (h : alookup d k = some v) : (k, v) ∈ d := by
  rw [alookup] at h
  rcases Option.map_eq_some'.mp h with ⟨p, hp, hpv⟩
  have hk := List.find?_some hp
  simp only [decide_eq_true_eq] at hk
  have hm := List.mem_of_find?_eq_some hp
  have hpkv : p = (k, v) := by
    cases p
    simp only at hk hpv
    rw [hk, hpv]
  rw [← hpkv]
  exact hm

theorem addUnique_nodup {α : Type} [DecidableEq α] {l : List α} (h : l.Nodup) (v : α) :
    (addUnique l v).Nodup := by
  rw [addUnique]
  split
  · exact h
  · rename_i hv
    rw [List.nodup_append]
    exact ⟨h, List.nodup_singleton v, fun x hx hx1 => hv ((List.mem_singleton.mp hx1) ▸ hx)⟩

theorem dedupFirst_go_nodup {α : Type} [DecidableEq α] (l : List α) :
    ∀ acc : List α, acc.Nodup → (l.foldl addUnique acc).Nodup := by
  induction l with
  | nil => intro acc h; exact h
  | cons v l ih =>
    intro acc h
    exact ih (addUnique acc v) (addUnique_nodup h v)

theorem dedupFirst_nodup {α : Type} [DecidableEq α] (l : List α) : (dedupFirst l).Nodup :=
  dedupFirst_go_nodup l [] List.nodup_nil

theorem strict_extend_nodup (l1 l2 : List String) : (strict_extend l1 l2).Nodup :=
  dedupFirst_nodup (l1 ++ l2)

theorem collect_address_nodup (tad : List (Nat × List String)) :
    (collect_address tad).Nodup := by
  rw [collect_address]
  rcases tad with _ | ⟨p, tad⟩
  · exact List.nodup_nil
  · rw [List.foldl_cons]
    have : ∀ (rest : List (Nat × List String)) (acc : List String), acc.Nodup →
        (rest.foldl (fun al q => strict_extend al q.2) acc).Nodup := by
      intro rest
      induction rest with
      | nil => intro acc h; exact h
      | cons q rest ih => intro acc _; exact ih _ (strict_extend_nodup acc q.2)
    exact this tad _ (strict_extend_nodup [] p.2)

theorem foldl_dinsert_eq_map {β : Type} (f : String → β) :
    ∀ (l : List String) (d : List (String × β)), l.Nodup →
      (∀ a ∈ l, alookup d a = none) →
      l.foldl (fun pre address => dinsert pre address (f address)) d =
        d ++ l.map (fun a => (a, f a)) := by
  intro l
  induction l with
  | nil => intro d _ _; simp
  | cons a l ih =>
    intro d hnd hfresh
    rw [List.foldl_cons]
    have hda : alookup d a = none := hfresh a (List.mem_cons_self a l)
    have hstep : dinsert d a (f a) = d ++ [(a, f a)] := by
      rw [dinsert, hda]
    rw [hstep, ih (d ++ [(a, f a)]) (List.Nodup.of_cons hnd) ?fresh]
    · simp
    case fresh =>
      intro b hb
      rw [alookup_append, hfresh b (List.mem_cons_of_mem a hb), oor_none, alookup_single]
      have : ¬ a = b := fun hab => (List.nodup_cons.mp hnd).1 (hab ▸ hb)
      rw [if_neg this]

theorem collect_from_steps_fst_nodup (tl : List PreNode)
    (t : List String × List (String × List (String × String)) × SecDict)
    (h : collect_from_steps tl = some t) : t.1.Nodup := by
  rw [collect_from_steps] at h
  rcases Option.map_eq_some'.mp h with ⟨acc, _, hval⟩
  rw [← hval]
  exact collect_address_nodup acc.1

/-- `collect_pre` unrolled: on success it is the graph of `pre_entry_for`
over the collected address list. -/
theorem collect_pre_eq_map (checksum : String → String) (bal nonceOf : String → Option Nat)
    (codeOf : String → Option String) (tl : List PreNode)
    (t : List String × List (String × List (String × String)) × SecDict)
    (h : collect_from_steps tl = some t) :
    collect_pre checksum bal nonceOf codeOf tl =
      some (t.1.map (fun a =>
        (a, pre_entry_for checksum bal nonceOf codeOf t.2.1 t.2.2 a))) := by
  rw [collect_pre, h, Option.map_some']
  exact congrArg some
    (foldl_dinsert_eq_map _ t.1 [] (collect_from_steps_fst_nodup tl t h)
      (fun a _ => alookup_nil a))

theorem alookup_map_graph {β : Type} (f : String → β) (l : List String) (a : String)
    (e : β) (h : alookup (l.map (fun x => (x, f x))) a = some e) : e = f a := by
  rw [alookup, List.find?_map] at h
  rcases Option.map_eq_some'.mp h with ⟨p, hp, hpv⟩
  rcases Option.map_eq_some'.mp hp with ⟨x, hx, hxp⟩
  have hxa := List.find?_some hx
  simp only [Function.comp, decide_eq_true_eq] at hxa
  rw [← hpv, ← hxp, hxa]

/-- C5 counterexample node: one step with an explicit storage change whose
pre-value is the numerically-zero string "0x0000". -/
def c5Node : PreNode := ⟨0, ⟨[⟨"0xaaa", 0, [], some ⟨"0x01", "0x0000", "0x01"⟩⟩], "0xaaa", "0xaaa"⟩⟩

/-- C5 counterexample: the pre-state of `c5Node` maps slot "0x01" to
"0x0000", a numerically zero value (its integer reading is 0) that the
pruning (a string comparison against "0x00") does not drop. -/
theorem c5_counterexample :
    (collect_pre id (fun _ => some 0) (fun _ => some 0) (fun _ => some "") [c5Node]).map
        (fun d => (alookup d "0xaaa").map (fun e => alookup e.storage "0x01")) =
      some (some (some "0x0000")) ∧
    hexGroupToNat (("0x0000").toList) = 0 := by
  exact ⟨by decide, by decide⟩

/-- C5 (amended): no slot of a returned pre-state entry maps to the exact
string "0x00"; pruning is by literal string comparison, so a zero value with
more hex digits survives. -/
theorem c5_storage_pruning (checksum : String → String) (bal nonceOf : String → Option Nat)
    (codeOf : String → Option String) (tl : List PreNode) (d : List (String × PreEntry))
    (h : collect_pre checksum bal nonceOf codeOf tl = some d)
    (a : String) (e : PreEntry) (he : alookup d a = some e)
    (k v : String) (hk : alookup e.storage k = some v) :
    ¬ v = "0x00" := by
  rw [collect_pre] at h
  rcases Option.map_eq_some'.mp h with ⟨t, ht, hval⟩
  rw [← hval] at he
  rw [foldl_dinsert_eq_map _ t.1 []
    (collect_from_steps_fst_nodup tl t ht) (fun a _ => alookup_nil a)] at he
  rw [List.nil_append] at he
  have he' := alookup_map_graph _ t.1 a e he
  have hstor : ∃ st : List (String × String),
      e.storage = st.filter (fun p => ¬ p.2 = "0x00") := by
    rw [he', pre_entry_for]
    exact ⟨_, rfl⟩
  rcases hstor with ⟨st, hst⟩
  rw [hst] at hk
  have hmem := alookup_mem hk
  have := (List.mem_filter.mp hmem).2
  exact of_decide_eq_true this

/-- C5 witness node: one explicit change with the non-zero pre-value
"0x05". -/
def c5WitNode : PreNode := ⟨0, ⟨[⟨"0xe", 0, [], some ⟨"0x01", "0x05", "0x00"⟩⟩], "0xe", "0xe"⟩⟩

/-- C5 witness: the surviving slot value "0x05" of the concrete pre-state is
not the pruned zero string. -/
theorem c5_storage_pruning_witness : ¬ ("0x05" : String) = "0x00" := by
  have h : collect_pre id (fun _ => none) (fun _ => none) (fun _ => none) [c5WitNode] =
      some [("0xe", ⟨"0x00", "0x01", "0x", [("0x01", "0x05")]⟩)] := by decide
  have he : alookup [("0xe", (⟨"0x00", "0x01", "0x", [("0x01", "0x05")]⟩ : PreEntry))] ("0xe") =
      some ⟨"0x00", "0x01", "0x", [("0x01", "0x05")]⟩ := by decide
  have hk : alookup (PreEntry.storage ⟨"0x00", "0x01", "0x", [("0x01", "0x05")]⟩) ("0x01") =
      some "0x05" := by decide
  exact c5_storage_pruning id (fun _ => none) (fun _ => none) (fun _ => none) [c5WitNode]
    _ h ("0xe") _ he ("0x01") ("0x05") hk

/-- C7: a failing RPC read yields the fixed per-field default (balance
"0x00", nonce "0x01", code "0x"), and oracle failures never change which
addresses get resolved nor their storage maps — resolution of the remaining
fields and addresses always proceeds. -/
theorem c7_resolver_defaults (checksum : String → String)
    (bal nonceOf : String → Option Nat) (codeOf : String → Option String)
    (bal2 nonceOf2 : String → Option Nat) (codeOf2 : String → Option String)
    (a : String) (trace_list : List PreNode) :
    (bal a = none → retrieve_balance bal a = "0x00") ∧
    (nonceOf a = none → retrieve_nonce nonceOf a = "0x01") ∧
    (codeOf a = none → retrieve_code codeOf a = "0x") ∧
    (collect_pre checksum bal nonceOf codeOf trace_list).map
        (fun d => d.map (fun p => p.1)) =
      (collect_pre checksum bal2 nonceOf2 codeOf2 trace_list).map
        (fun d => d.map (fun p => p.1)) ∧
    (collect_pre checksum bal nonceOf codeOf trace_list).map
        (fun d => d.map (fun p => (p.1, p.2.storage))) =
      (collect_pre checksum bal2 nonceOf2 codeOf2 trace_list).map
        (fun d => d.map (fun p => (p.1, p.2.storage))) := by
  refine ⟨fun h => by rw [retrieve_balance, h],
          fun h => by rw [retrieve_nonce, h],
          fun h => by rw [retrieve_code, h], ?_, ?_⟩
  all_goals
    cases ht : collect_from_steps trace_list with
    | none => simp only [collect_pre, ht, Option.map_none']
    | some t =>
      rw [collect_pre_eq_map checksum bal nonceOf codeOf trace_list t ht,
          collect_pre_eq_map checksum bal2 nonceOf2 codeOf2 trace_list t ht,
          Option.map_some', Option.map_some', List.map_map, List.map_map]
      exact congrArg some (congrArg (fun f => List.map f t.1) (funext fun x => rfl))

/-- C7 witness with all-failing oracles at a concrete address. -/
theorem c7_resolver_defaults_witness :
    retrieve_balance (fun _ => none) ("0xa") = "0x00" ∧
    retrieve_nonce (fun _ => none) ("0xa") = "0x01" ∧
    retrieve_code (fun _ => none) ("0xa") = "0x" := by
  have h := c7_resolver_defaults id (fun _ => none) (fun _ => none) (fun _ => none)
      (fun _ => some 0) (fun _ => some 0) (fun _ => some "") ("0xa") []
  exact ⟨h.1 rfl, h.2.1 rfl, h.2.2.1 rfl⟩

/-! ### First-write-wins machinery (claim C6)

The storage dict built by `collect_from_steps` is characterised against the
flat traversal-order sequence of explicit `storage_change` records: for every
address and slot, the first record (outer-to-inner over nodes, left-to-right
over steps) whose normalised key matches wins. -/

/-- Two-level dict lookup: the value of slot `k` under address `a`. -/
def alookup2 (d : List (String × List (String × String))) (a k : String) : Option String :=
  (alookup d a).bind (fun c => alookup c k)

/-- All explicit changes a per-node dict holds for address `a`, in dict
order. -/
def node_changes (scd : SCDict) (a : String) : List SChange :=
  scd.foldr (fun p acc => (if p.1 = a then p.2 else []) ++ acc) []

/-- All explicit changes the node-indexed dict holds for address `a`, in
traversal order. -/
def tsd_changes (tsd : List (Nat × SCDict)) (a : String) : List SChange :=
  tsd.foldr (fun p acc => node_changes p.2 a ++ acc) []

/-- The explicit `storage_change` records of a step list for address `a`, in
step order. -/
def step_changes (steps : List PStep) (a : String) : List SChange :=
  steps.filterMap (fun st => if st.contract = a then st.storage_change else none)

/-- The full traversal-order sequence of explicit changes of an arena for
address `a`: nodes outer-to-inner, steps left-to-right. -/
def explicit_changes_for (tl : List PreNode) (a : String) : List SChange :=
  tl.foldr (fun nd acc => step_changes nd.trace.steps a ++ acc) []

/-- The chronological effect of a change sequence on one dict entry: create
the entry at the first change, then append unseen records. -/
def updateChrono (o : Option (List SChange)) (l : List SChange) : Option (List SChange) :=
  l.foldl
    (fun acc sc =>
      match acc with
      | none => some [sc]
      | some cur => some (if sc ∈ cur then cur else cur ++ [sc]))
    o

/-- Order-preserving dedup of a change list (keep first occurrences). -/
def dedupSC (l : List SChange) : List SChange :=
  l.foldl (fun cur sc => if sc ∈ cur then cur else cur ++ [sc]) []

theorem oor_map {α β : Type} (f : α → β) (x y : Option α) :
    (oor x y).map f = oor (x.map f) (y.map f) := by
  cases x <;> rfl

theorem find?_append_oor {α : Type} (l₁ l₂ : List α) (p : α → Bool) :
    (l₁ ++ l₂).find? p = oor (l₁.find? p) (l₂.find? p) := by
  rw [List.find?_append]
  cases l₁.find? p <;> rfl

theorem get_all_keys_go (l : List SChange) :
    ∀ (kd : List (String × String)) (k : String),
    alookup (l.foldl
        (fun kd sc =>
          if (alookup kd (make_hex_even sc.key)).isSome then kd
          else kd ++ [(make_hex_even sc.key, make_hex_even sc.had_value)]) kd) k =
      oor (alookup kd k)
        ((l.find? (fun sc => make_hex_even sc.key = k)).map
          (fun sc => make_hex_even sc.had_value)) := by
  induction l with
  | nil => intro kd k; simp
  | cons sc l ih =>
    intro kd k
    rw [List.foldl_cons, ih]
    by_cases hk : make_hex_even sc.key = k
    · have hp : (fun sc2 : SChange => decide (make_hex_even sc2.key = k)) sc = true :=
        decide_eq_true hk
      rw [@List.find?_cons_of_pos SChange (fun sc2 => decide (make_hex_even sc2.key = k)) sc l hp,
        Option.map_some']
      by_cases hs : (alookup kd (make_hex_even sc.key)).isSome
      · rw [if_pos hs]
        obtain ⟨w, hw⟩ := Option.isSome_iff_exists.mp (hk ▸ hs)
        rw [hw]
        rfl
      · rw [if_neg hs, alookup_append, alookup_single, if_pos hk]
        have hnone : alookup kd k = none := by
          rw [← hk]
          exact Option.not_isSome_iff_eq_none.mp hs
        rw [hnone]
        rfl
    · have hp : ¬ (fun sc2 : SChange => decide (make_hex_even sc2.key = k)) sc = true := by
        simp only [decide_eq_true_eq]
        exact hk
      rw [@List.find?_cons_of_neg SChange (fun sc2 => decide (make_hex_even sc2.key = k)) sc l hp]
      by_cases hs : (alookup kd (make_hex_even sc.key)).isSome
      · rw [if_pos hs]
      · rw [if_neg hs, alookup_append, alookup_single, if_neg hk, oor_none_right]

theorem alookup_get_all_keys (l : List SChange) (k : String) :
    alookup (get_all_keys l) k =
      ((l.find? (fun sc => make_hex_even sc.key = k)).map
        (fun sc => make_hex_even sc.had_value)) := by
  rw [get_all_keys, get_all_keys_go]
  simp

theorem merge_fold_alookup (vd : List (String × String)) :
    ∀ (cur : List (String × String)) (k : String),
    alookup (vd.foldl (fun c p => if (alookup c p.1).isSome then c else c ++ [p]) cur) k =
      oor (alookup cur k) (alookup vd k) := by
  induction vd with
  | nil => intro cur k; simp
  | cons q vd ih =>
    intro cur k
    rw [List.foldl_cons, ih, alookup_cons]
    by_cases hq : q.1 = k
    · by_cases hs : (alookup cur q.1).isSome
      · rw [if_pos hs, if_pos hq]
        obtain ⟨w, hw⟩ := Option.isSome_iff_exists.mp (hq ▸ hs)
        rw [hw]
        rfl
      · rw [if_neg hs, alookup_append, alookup_single, if_pos hq]
        have hnone : alookup cur k = none := by
          rw [← hq]
          exact Option.not_isSome_iff_eq_none.mp hs
        rw [hnone, if_pos hq]
        rfl
    · rw [if_neg hq]
      by_cases hs : (alookup cur q.1).isSome
      · rw [if_pos hs]
      · rw [if_neg hs, alookup_append, alookup_single, if_neg hq, oor_none_right]

theorem alookup2_extend_dict (d : List (String × List (String × String))) (key : String)
    (vd : List (String × String)) (a k : String) :
    alookup2 (extend_dict d key vd) a k =
      if a = key then oor (alookup2 d a k) (alookup vd k) else alookup2 d a k := by
  rw [extend_dict]
  cases hc : alookup d key with
  | none =>
    rw [alookup2, alookup_append, alookup_single]
    by_cases ha : a = key
    · have : alookup d a = none := ha ▸ hc
      rw [if_pos ha.symm, this, oor_none, Option.some_bind, if_pos ha, alookup2, this]
      rfl
    · have : ¬ key = a := fun h => ha h.symm
      rw [if_neg this, oor_none_right, if_neg ha, alookup2]
  | some cur =>
    rw [alookup2, alookup_dupdate]
    by_cases ha : a = key
    · rw [if_pos ⟨ha, by rw [hc]; rfl⟩, Option.some_bind, merge_fold_alookup, if_pos ha,
        alookup2, ha, hc, Option.some_bind]
    · rw [if_neg (fun h => ha h.1), if_neg ha, alookup2]

theorem node_changes_cons (p : String × List SChange) (scd : SCDict) (a : String) :
    node_changes (p :: scd) a = (if p.1 = a then p.2 else []) ++ node_changes scd a := rfl

theorem gsk_inner (scd : SCDict) :
    ∀ (sd : List (String × List (String × String))) (a k : String),
    alookup2 (scd.foldl (fun sd2 q => extend_dict sd2 q.1 (get_all_keys q.2)) sd) a k =
      oor (alookup2 sd a k)
        (((node_changes scd a).find? (fun sc => make_hex_even sc.key = k)).map
          (fun sc => make_hex_even sc.had_value)) := by
  induction scd with
  | nil => intro sd a k; simp [node_changes]
  | cons q scd ih =>
    intro sd a k
    rw [List.foldl_cons, ih, alookup2_extend_dict, node_changes_cons, find?_append_oor, oor_map]
    by_cases hq : q.1 = a
    · rw [if_pos hq.symm, if_pos hq, alookup_get_all_keys, oor_assoc]
    · rw [if_neg (fun h => hq h.symm), if_neg hq]
      simp

theorem tsd_changes_cons (p : Nat × SCDict) (tsd : List (Nat × SCDict)) (a : String) :
    tsd_changes (p :: tsd) a = node_changes p.2 a ++ tsd_changes tsd a := rfl

theorem gsk_go (tsd : List (Nat × SCDict)) :
    ∀ (sd : List (String × List (String × String))) (a k : String),
    alookup2 (tsd.foldl
        (fun sd p => p.2.foldl (fun sd2 q => extend_dict sd2 q.1 (get_all_keys q.2)) sd) sd) a k =
      oor (alookup2 sd a k)
        (((tsd_changes tsd a).find? (fun sc => make_hex_even sc.key = k)).map
          (fun sc => make_hex_even sc.had_value)) := by
  induction tsd with
  | nil => intro sd a k; simp [tsd_changes]
  | cons p tsd ih =>
    intro sd a k
    rw [List.foldl_cons, ih, gsk_inner, tsd_changes_cons, find?_append_oor, oor_map, oor_assoc]

theorem gsk_alookup2 (tsd : List (Nat × SCDict)) (a k : String) :
    alookup2 (get_storage_keys tsd) a k =
      (((tsd_changes tsd a).find? (fun sc => make_hex_even sc.key = k)).map
        (fun sc => make_hex_even sc.had_value)) := by
  rw [get_storage_keys, gsk_go]
  rfl

theorem dupdate_keys {α β : Type} [DecidableEq α] (d : List (α × β)) (k : α) (v : β) :
    (dupdate d k v).map (fun p => p.1) = d.map (fun p => p.1) := by
  induction d with
  | nil => rfl
  | cons p ps ih =>
    rw [dupdate]
    by_cases hp : p.1 = k
    · rw [if_pos hp]
      rfl
    · rw [if_neg hp, List.map_cons, List.map_cons, ih]

theorem alookup_add_to_dict {β : Type} [DecidableEq β] (d : List (String × List β))
    (c : String) (v : β) (a : String) :
    alookup (add_to_dict d c v) a =
      if a = c then
        some (match alookup d c with
              | none => [v]
              | some cur => if v ∈ cur then cur else cur ++ [v])
      else alookup d a := by
  cases hc : alookup d c with
  | none =>
    simp only [add_to_dict, hc]
    rw [alookup_append, alookup_single]
    by_cases ha : a = c
    · have h2 : alookup d a = none := ha ▸ hc
      rw [h2, oor_none, if_pos ha.symm, if_pos ha]
    · have h2 : ¬ c = a := fun h => ha h.symm
      rw [if_neg h2, oor_none_right, if_neg ha]
  | some cur =>
    simp only [add_to_dict, hc]
    by_cases hv : v ∈ cur
    · simp only [if_pos hv]
      by_cases ha : a = c
      · rw [if_pos ha, ha, hc]
      · rw [if_neg ha]
    · simp only [if_neg hv]
      rw [alookup_dupdate]
      by_cases ha : a = c
      · rw [if_pos ⟨ha, by rw [hc]; rfl⟩, if_pos ha]
      · rw [if_neg (fun h => ha h.1), if_neg ha]

theorem add_to_dict_keys_nodup {β : Type} [DecidableEq β] (d : List (String × List β))
    (c : String) (v : β) (h : (d.map (fun p => p.1)).Nodup) :
    ((add_to_dict d c v).map (fun p => p.1)).Nodup := by
  cases hc : alookup d c with
  | none =>
    simp only [add_to_dict, hc]
    rw [List.map_append, List.nodup_append]
    refine ⟨h, List.nodup_singleton c, ?_⟩
    intro x hx hx1
    simp only [List.map_cons, List.map_nil, List.mem_singleton] at hx1
    have := (alookup_eq_none_iff d c).mp hc
    exact this (hx1 ▸ hx)
  | some cur =>
    simp only [add_to_dict, hc]
    by_cases hv : v ∈ cur
    · simp only [if_pos hv]
      exact h
    · simp only [if_neg hv]
      rw [dupdate_keys]
      exact h

theorem scs_scd_keys_nodup (scd : SCDict) (st : PStep)
    (h : (scd.map (fun p => p.1)).Nodup) :
    ((scs_scd scd st).map (fun p => p.1)).Nodup := by
  rw [scs_scd]
  cases st.storage_change with
  | none => exact h
  | some sc => exact add_to_dict_keys_nodup scd st.contract sc h

theorem updateChrono_cons (o : Option (List SChange)) (sc : SChange) (l : List SChange) :
    updateChrono o (sc :: l) =
      updateChrono
        (match o with
         | none => some [sc]
         | some cur => some (if sc ∈ cur then cur else cur ++ [sc])) l := rfl

/-- One step's effect on the per-address chronological change list matches
`scs_scd`'s dict update. -/
theorem scs_scd_chrono (scd : SCDict) (st : PStep) (rest : List PStep) (a : String) :
    updateChrono (alookup (scs_scd scd st) a) (step_changes rest a) =
      updateChrono (alookup scd a) (step_changes (st :: rest) a) := by
  rw [scs_scd]
  cases hsc : st.storage_change with
  | none =>
    have hstep : step_changes (st :: rest) a = step_changes rest a := by
      rw [step_changes, List.filterMap_cons]
      by_cases hc : st.contract = a
      · rw [if_pos hc, hsc]
        rfl
      · rw [if_neg hc]
        rfl
    rw [hstep]
  | some sc =>
    by_cases hc : st.contract = a
    · have hstep : step_changes (st :: rest) a = sc :: step_changes rest a := by
        rw [step_changes, List.filterMap_cons, if_pos hc, hsc]
        rfl
      rw [hstep, updateChrono_cons]
      have harg :
          alookup (add_to_dict scd st.contract sc) a =
            (match alookup scd a with
             | none => some [sc]
             | some cur => some (if sc ∈ cur then cur else cur ++ [sc])) := by
        rw [alookup_add_to_dict, if_pos hc.symm, hc]
        cases alookup scd a <;> rfl
      rw [harg]
    · have hstep : step_changes (st :: rest) a = step_changes rest a := by
        rw [step_changes, List.filterMap_cons, if_neg hc]
        rfl
      rw [hstep, alookup_add_to_dict, if_neg (fun h => hc h.symm)]

theorem collect_scs_go_scd (steps : List PStep) :
    ∀ (acc out : List String × SCDict × SecDict),
    collect_scs_go acc steps = some out →
    (acc.2.1.map (fun p => p.1)).Nodup →
    ((out.2.1.map (fun p => p.1)).Nodup ∧
     ∀ a, alookup out.2.1 a = updateChrono (alookup acc.2.1 a) (step_changes steps a)) := by
  induction steps with
  | nil =>
    intro acc out h hnd
    simp only [collect_scs_go] at h
    have hout := (Option.some.injEq _ _).mp h
    subst hout
    exact ⟨hnd, fun a => rfl⟩
  | cons st rest ih =>
    intro acc out h hnd
    simp only [collect_scs_go] at h
    have hnd' := scs_scd_keys_nodup acc.2.1 st hnd
    split at h
    · split at h
      · have hspec := ih _ out h hnd'
        refine ⟨hspec.1, fun a => ?_⟩
        rw [hspec.2 a]
        exact scs_scd_chrono acc.2.1 st _ a
      · split at h
        · have hspec := ih _ out h hnd'
          refine ⟨hspec.1, fun a => ?_⟩
          rw [hspec.2 a]
          exact scs_scd_chrono acc.2.1 st _ a
        · exact absurd h (by simp)
    · have hspec := ih _ out h hnd'
      refine ⟨hspec.1, fun a => ?_⟩
      rw [hspec.2 a]
      exact scs_scd_chrono acc.2.1 st _ a

theorem collect_state_changes_scd (steps : List PStep)
    (out : List String × SCDict × SecDict)
    (h : collect_state_changes steps = some out) :
    ((out.2.1.map (fun p => p.1)).Nodup ∧
     ∀ a, alookup out.2.1 a = updateChrono none (step_changes steps a)) := by
  have := collect_scs_go_scd steps ([], [], []) out h List.nodup_nil
  exact ⟨this.1, fun a => this.2 a⟩

theorem updateChrono_some (l : List SChange) :
    ∀ cur : List SChange,
    updateChrono (some cur) l =
      some (l.foldl (fun cur sc => if sc ∈ cur then cur else cur ++ [sc]) cur) := by
  induction l with
  | nil => intro cur; rfl
  | cons sc l ih =>
    intro cur
    rw [updateChrono_cons, List.foldl_cons]
    exact ih (if sc ∈ cur then cur else cur ++ [sc])

theorem updateChrono_none_eq (l : List SChange) :
    updateChrono none l = if l = [] then none else some (dedupSC l) := by
  cases l with
  | nil => rfl
  | cons sc rest =>
    rw [if_neg (List.cons_ne_nil sc rest)]
    have h1 : updateChrono none (sc :: rest) = updateChrono (some [sc]) rest := rfl
    have h2 : dedupSC (sc :: rest) =
        rest.foldl (fun cur sc2 => if sc2 ∈ cur then cur else cur ++ [sc2]) [sc] := rfl
    rw [h1, h2, updateChrono_some]

theorem find?_filter_shift {α : Type} [DecidableEq α] (p : α → Bool) (v : α)
    (hpv : ¬ p v = true) (acc : List α) :
    ∀ l : List α,
    (l.filter (fun x => ¬ x ∈ acc ++ [v])).find? p =
      (l.filter (fun x => ¬ x ∈ acc)).find? p := by
  intro l
  induction l with
  | nil => rfl
  | cons x l ih =>
    rw [List.filter_cons, List.filter_cons]
    by_cases hxa : x ∈ acc
    · have h1 : ¬ (decide (¬ x ∈ acc ++ [v]) = true) := by
        simp [hxa]
      have h2 : ¬ (decide (¬ x ∈ acc) = true) := by
        simp [hxa]
      rw [if_neg h1, if_neg h2]
      exact ih
    · by_cases hxv : x = v
      · have h1 : ¬ (decide (¬ x ∈ acc ++ [v]) = true) := by
          simp [hxv]
        have h2 : decide (¬ x ∈ acc) = true := by
          simp [hxa]
        rw [if_neg h1, if_pos h2]
        rw [List.find?_cons_of_neg _ (hxv ▸ hpv)]
        exact ih
      · have h1 : decide (¬ x ∈ acc ++ [v]) = true := by
          simp [hxa, hxv]
        have h2 : decide (¬ x ∈ acc) = true := by
          simp [hxa]
        rw [if_pos h1, if_pos h2]
        by_cases hp : p x = true
        · rw [List.find?_cons_of_pos _ hp, List.find?_cons_of_pos _ hp]
        · rw [List.find?_cons_of_neg _ hp, List.find?_cons_of_neg _ hp]
          exact ih

theorem find?_dedup_go {α : Type} [DecidableEq α] (p : α → Bool) :
    ∀ (l acc : List α),
    ((l.foldl (fun cur sc => if sc ∈ cur then cur else cur ++ [sc]) acc).find? p) =
      oor (acc.find? p) ((l.filter (fun x => ¬ x ∈ acc)).find? p) := by
  intro l
  induction l with
  | nil => intro acc; simp
  | cons v l ih =>
    intro acc
    rw [List.foldl_cons]
    by_cases hv : v ∈ acc
    · rw [if_pos hv, ih, List.filter_cons]
      have h1 : ¬ (decide (¬ v ∈ acc) = true) := by
        simp [hv]
      rw [if_neg h1]
    · rw [if_neg hv, ih, find?_append_oor, List.filter_cons]
      have h2 : decide (¬ v ∈ acc) = true := by
        simp [hv]
      rw [if_pos h2]
      by_cases hp : p v = true
      · rw [List.find?_cons_of_pos _ hp, @List.find?_cons_of_pos α p v (l.filter
          (fun x => ¬ x ∈ acc)) hp]
        rw [oor_assoc, oor_some]
      · rw [List.find?_cons_of_neg _ hp, @List.find?_cons_of_neg α p v (l.filter
          (fun x => ¬ x ∈ acc)) hp]
        rw [find?_filter_shift p v hp acc l, List.find?_nil, oor_none_right]

theorem find?_dedupSC (l : List SChange) (p : SChange → Bool) :
    (dedupSC l).find? p = l.find? p := by
  rw [dedupSC, find?_dedup_go]
  have : l.filter (fun x => ¬ x ∈ ([] : List SChange)) = l := by
    simp
  rw [this]
  rfl

theorem node_changes_nil_of_not_mem (scd : SCDict) (a : String)
    (h : ¬ a ∈ scd.map (fun p => p.1)) : node_changes scd a = [] := by
  induction scd with
  | nil => rfl
  | cons p ps ih =>
    rw [node_changes_cons]
    have hp : ¬ p.1 = a := by
      intro hpa
      exact h (List.mem_map.mpr ⟨p, List.mem_cons_self p ps, hpa⟩)
    rw [if_neg hp, List.nil_append]
    exact ih (fun hmem => h (List.mem_cons_of_mem _ hmem))

theorem node_changes_eq_alookup (scd : SCDict)
    (hnd : (scd.map (fun p => p.1)).Nodup) (a : String) :
    node_changes scd a = (alookup scd a).getD [] := by
  induction scd with
  | nil => rfl
  | cons p ps ih =>
    rw [node_changes_cons, alookup_cons]
    have hnd2 := (List.nodup_cons.mp hnd)
    by_cases hp : p.1 = a
    · rw [if_pos hp, if_pos hp]
      have hnotin : ¬ a ∈ ps.map (fun q => q.1) := hp ▸ hnd2.1
      rw [node_changes_nil_of_not_mem ps a hnotin, List.append_nil]
      rfl
    · rw [if_neg hp, if_neg hp, List.nil_append]
      exact ih hnd2.2

theorem tsd_changes_append (d : List (Nat × SCDict)) (e : Nat × SCDict) (a : String) :
    tsd_changes (d ++ [e]) a = tsd_changes d a ++ node_changes e.2 a := by
  induction d with
  | nil =>
    rw [List.nil_append]
    have h1 : tsd_changes [e] a = node_changes e.2 a ++ [] := rfl
    have h2 : tsd_changes ([] : List (Nat × SCDict)) a = [] := rfl
    rw [h1, h2, List.append_nil, List.nil_append]
  | cons p d ih =>
    rw [List.cons_append, tsd_changes_cons, tsd_changes_cons, ih, List.append_assoc]

theorem explicit_changes_cons (nd : PreNode) (tl : List PreNode) (a : String) :
    explicit_changes_for (nd :: tl) a =
      step_changes nd.trace.steps a ++ explicit_changes_for tl a := rfl

/-- Traversal-order characterisation of the node-indexed storage dict built
by the `collect_from_steps` fold, up to `find?`. -/
theorem cfs_fold_changes (tl : List PreNode) :
    ∀ (acc0 out : List (Nat × List String) × List (Nat × SCDict) × SecDict),
    tl.foldlM cfs_node_fold acc0 = some out →
    (tl.map PreNode.idx).Nodup →
    (∀ nd ∈ tl, ¬ nd.idx ∈ acc0.2.1.map (fun p => p.1)) →
    ∀ (a : String) (p : SChange → Bool),
    (tsd_changes out.2.1 a).find? p =
      oor ((tsd_changes acc0.2.1 a).find? p) ((explicit_changes_for tl a).find? p) := by
  induction tl with
  | nil =>
    intro acc0 out h _ _ a p
    rw [List.foldlM_nil] at h
    have hout := (Option.some.injEq _ _).mp h
    subst hout
    simp [explicit_changes_for]
  | cons nd tl ih =>
    intro acc0 out h hidx hfresh a p
    rw [List.foldlM_cons] at h
    cases h1 : cfs_node_fold acc0 nd with
    | none =>
      rw [h1] at h
      exact absurd h (by simp)
    | some acc1 =>
      rw [h1] at h
      have h3 : tl.foldlM cfs_node_fold acc1 = some out := h
      rw [cfs_node_fold] at h1
      cases h2 : collect_state_changes nd.trace.steps with
      | none =>
        rw [h2] at h1
        exact absurd h1 (by simp)
      | some trip =>
        obtain ⟨al, scd, ssd⟩ := trip
        rw [h2] at h1
        have hacc1 : acc1.2.1 = dinsert acc0.2.1 nd.idx scd := by
          have := (Option.some.injEq _ _).mp h1
          rw [← this]
        have hfreshnd : ¬ nd.idx ∈ acc0.2.1.map (fun p => p.1) :=
          hfresh nd (List.mem_cons_self nd tl)
        have happ : dinsert acc0.2.1 nd.idx scd = acc0.2.1 ++ [(nd.idx, scd)] := by
          rw [dinsert, (alookup_eq_none_iff acc0.2.1 nd.idx).mpr hfreshnd]
        have hfresh2 : ∀ nd2 ∈ tl, ¬ nd2.idx ∈ acc1.2.1.map (fun p => p.1) := by
          intro nd2 hnd2 hmem
          rw [hacc1, happ, List.map_append] at hmem
          rcases List.mem_append.mp hmem with hmem1 | hmem1
          · exact hfresh nd2 (List.mem_cons_of_mem nd hnd2) hmem1
          · simp only [List.map_cons, List.map_nil, List.mem_singleton] at hmem1
            exact (List.nodup_cons.mp hidx).1
              (List.mem_map.mpr ⟨nd2, hnd2, hmem1⟩)
        have hrec := ih acc1 out h3 (List.nodup_cons.mp hidx).2 hfresh2 a p
        rw [hrec]
        have htsd : tsd_changes acc1.2.1 a =
            tsd_changes acc0.2.1 a ++ node_changes scd a := by
          rw [hacc1, happ]
          exact tsd_changes_append acc0.2.1 (nd.idx, scd) a
        rw [htsd, find?_append_oor, oor_assoc]
        have hspec := collect_state_changes_scd nd.trace.steps (al, scd, ssd) h2
        have hnode : (node_changes scd a).find? p =
            (step_changes nd.trace.steps a).find? p := by
          rw [node_changes_eq_alookup scd hspec.1 a, hspec.2 a, updateChrono_none_eq]
          by_cases hsc : step_changes nd.trace.steps a = []
          · rw [if_pos hsc, hsc]
            rfl
          · rw [if_neg hsc]
            exact find?_dedupSC (step_changes nd.trace.steps a) p
        rw [hnode, explicit_changes_cons, find?_append_oor]

theorem append_key_nodup {β : Type} (d : List (String × β)) (k : String) (v : β)
    (hnd : (d.map (fun p => p.1)).Nodup) (hk : alookup d k = none) :
    ((d ++ [(k, v)]).map (fun p => p.1)).Nodup := by
  rw [List.map_append, List.nodup_append]
  refine ⟨hnd, List.nodup_singleton k, ?_⟩
  intro x hx hx1
  simp only [List.map_cons, List.map_nil, List.mem_singleton] at hx1
  exact (alookup_eq_none_iff d k).mp hk (hx1 ▸ hx)

theorem gak_go_keys_nodup (l : List SChange) :
    ∀ kd : List (String × String), (kd.map (fun p => p.1)).Nodup →
    ((l.foldl
        (fun kd sc =>
          if (alookup kd (make_hex_even sc.key)).isSome then kd
          else kd ++ [(make_hex_even sc.key, make_hex_even sc.had_value)]) kd).map
      (fun p => p.1)).Nodup := by
  induction l with
  | nil => intro kd h; exact h
  | cons sc l ih =>
    intro kd h
    rw [List.foldl_cons]
    by_cases hs : (alookup kd (make_hex_even sc.key)).isSome
    · rw [if_pos hs]
      exact ih kd h
    · rw [if_neg hs]
      exact ih _ (append_key_nodup kd _ _ h (Option.not_isSome_iff_eq_none.mp hs))

theorem get_all_keys_keys_nodup (l : List SChange) :
    ((get_all_keys l).map (fun p => p.1)).Nodup := by
  rw [get_all_keys]
  exact gak_go_keys_nodup l [] List.nodup_nil

theorem merge_fold_keys_nodup (vd : List (String × String)) :
    ∀ cur : List (String × String), (cur.map (fun p => p.1)).Nodup →
    ((vd.foldl (fun c p => if (alookup c p.1).isSome then c else c ++ [p]) cur).map
      (fun p => p.1)).Nodup := by
  induction vd with
  | nil => intro cur h; exact h
  | cons q vd ih =>
    intro cur h
    rw [List.foldl_cons]
    by_cases hs : (alookup cur q.1).isSome
    · rw [if_pos hs]
      exact ih cur h
    · rw [if_neg hs]
      have := append_key_nodup cur q.1 q.2 h (Option.not_isSome_iff_eq_none.mp hs)
      exact ih _ (by simpa using this)

theorem mem_dupdate {α β : Type} [DecidableEq α] (d : List (α × β)) (k : α) (v : β)
    (x : α × β) (hx : x ∈ dupdate d k v) : x ∈ d ∨ x = (k, v) := by
  induction d with
  | nil => exact absurd hx (by simp [dupdate])
  | cons p ps ih =>
    rw [dupdate] at hx
    by_cases hp : p.1 = k
    · rw [if_pos hp] at hx
      rcases List.mem_cons.mp hx with hx1 | hx1
      · right
        rw [hx1, hp]
      · left
        exact List.mem_cons_of_mem p hx1
    · rw [if_neg hp] at hx
      rcases List.mem_cons.mp hx with hx1 | hx1
      · left
        exact hx1 ▸ List.mem_cons_self p ps
      · rcases ih hx1 with hx2 | hx2
        · left
          exact List.mem_cons_of_mem p hx2
        · right
          exact hx2

theorem extend_dict_values_nodup (d : List (String × List (String × String)))
    (key : String) (vd : List (String × String))
    (hd : ∀ q ∈ d, (q.2.map (fun p => p.1)).Nodup)
    (hvd : (vd.map (fun p => p.1)).Nodup) :
    ∀ q ∈ extend_dict d key vd, (q.2.map (fun p => p.1)).Nodup := by
  intro q hq
  rw [extend_dict] at hq
  cases hc : alookup d key with
  | none =>
    rw [hc] at hq
    rcases List.mem_append.mp hq with hq1 | hq1
    · exact hd q hq1
    · rw [List.mem_singleton] at hq1
      rw [hq1]
      exact hvd
  | some cur =>
    rw [hc] at hq
    rcases mem_dupdate _ _ _ q hq with hq1 | hq1
    · exact hd q hq1
    · rw [hq1]
      have hcur : (cur.map (fun p => p.1)).Nodup := hd (key, cur) (alookup_mem hc)
      exact merge_fold_keys_nodup vd cur hcur

theorem gsk_inner_values_nodup (scd : SCDict) :
    ∀ sd : List (String × List (String × String)),
    (∀ q ∈ sd, (q.2.map (fun p => p.1)).Nodup) →
    ∀ q ∈ scd.foldl (fun sd2 q => extend_dict sd2 q.1 (get_all_keys q.2)) sd,
      (q.2.map (fun p => p.1)).Nodup := by
  induction scd with
  | nil => intro sd h; exact h
  | cons r scd ih =>
    intro sd h
    rw [List.foldl_cons]
    exact ih _ (extend_dict_values_nodup sd r.1 (get_all_keys r.2) h
      (get_all_keys_keys_nodup r.2))

theorem gsk_values_nodup (tsd : List (Nat × SCDict)) :
    ∀ q ∈ get_storage_keys tsd, (q.2.map (fun p => p.1)).Nodup := by
  rw [get_storage_keys]
  have hgen : ∀ (tsd2 : List (Nat × SCDict)) (sd : List (String × List (String × String))),
      (∀ q ∈ sd, (q.2.map (fun p => p.1)).Nodup) →
      ∀ q ∈ tsd2.foldl
          (fun sd p => p.2.foldl (fun sd2 q => extend_dict sd2 q.1 (get_all_keys q.2)) sd) sd,
        (q.2.map (fun p => p.1)).Nodup := by
    intro tsd2
    induction tsd2 with
    | nil => intro sd h; exact h
    | cons r tsd2 ih =>
      intro sd h
      rw [List.foldl_cons]
      exact ih _ (gsk_inner_values_nodup r.2 sd h)
  exact hgen tsd [] (by intro q hq; exact absurd hq (List.not_mem_nil q))

theorem fill_alookup_isSome (kvs : List (String × String)) :
    ∀ (st : List (String × String)) (k : String), (alookup st k).isSome →
    alookup (kvs.foldl
        (fun st (kv : String × String) =>
          if (alookup st (make_hex_even kv.1)).isSome then st
          else st ++ [(make_hex_even kv.1, make_hex_even kv.2)]) st) k =
      alookup st k := by
  induction kvs with
  | nil => intro st k _; rfl
  | cons kv kvs ih =>
    intro st k hk
    rw [List.foldl_cons]
    by_cases hs : (alookup st (make_hex_even kv.1)).isSome
    · rw [if_pos hs]
      exact ih st k hk
    · rw [if_neg hs]
      have hneq : ¬ make_hex_even kv.1 = k := by
        intro heq
        rw [heq] at hs
        exact hs hk
      have hkeep : alookup (st ++ [(make_hex_even kv.1, make_hex_even kv.2)]) k =
          alookup st k := by
        rw [alookup_append, alookup_single, if_neg hneq, oor_none_right]
      rw [ih _ k (by rw [hkeep]; exact hk), hkeep]

theorem fill_keys_nodup (kvs : List (String × String)) :
    ∀ st : List (String × String), (st.map (fun p => p.1)).Nodup →
    (((kvs.foldl
        (fun st (kv : String × String) =>
          if (alookup st (make_hex_even kv.1)).isSome then st
          else st ++ [(make_hex_even kv.1, make_hex_even kv.2)]) st)).map
      (fun p => p.1)).Nodup := by
  induction kvs with
  | nil => intro st h; exact h
  | cons kv kvs ih =>
    intro st h
    rw [List.foldl_cons]
    by_cases hs : (alookup st (make_hex_even kv.1)).isSome
    · rw [if_pos hs]
      exact ih st h
    · rw [if_neg hs]
      exact ih _ (append_key_nodup st _ _ h (Option.not_isSome_iff_eq_none.mp hs))

theorem alookup_filter_none (l : List (String × String)) (q : String × String → Bool)
    (k : String) (h : alookup l k = none) : alookup (l.filter q) k = none := by
  rw [alookup_eq_none_iff] at h ⊢
  intro hmem
  exact h (((List.filter_sublist l).map (fun p => p.1)).subset hmem)

theorem alookup_filter_value (st : List (String × String)) :
    (st.map (fun p => p.1)).Nodup → ∀ (k v : String), alookup st k = some v →
    alookup (st.filter (fun p => ¬ p.2 = "0x00")) k =
      if v = "0x00" then none else some v := by
  induction st with
  | nil => intro _ k v h; exact absurd h (by simp)
  | cons p ps ih =>
    intro hnd k v h
    rw [alookup_cons] at h
    rw [List.filter_cons]
    by_cases hp : p.1 = k
    · rw [if_pos hp] at h
      have hv : v = p.2 := ((Option.some.injEq _ _).mp h).symm
      have hpsk : alookup ps k = none := by
        rw [alookup_eq_none_iff]
        exact hp ▸ (List.nodup_cons.mp hnd).1
      by_cases hz : p.2 = "0x00"
      · have hcond : ¬ (decide (¬ p.2 = "0x00") = true) := by simp [hz]
        rw [if_neg hcond, if_pos (hv.trans hz)]
        exact alookup_filter_none ps _ k hpsk
      · have hcond : decide (¬ p.2 = "0x00") = true := by simp [hz]
        rw [if_pos hcond, alookup_cons, if_pos hp, if_neg (hv ▸ hz), hv]
    · rw [if_neg hp] at h
      have htail := ih (List.nodup_cons.mp hnd).2 k v h
      by_cases hz : decide (¬ p.2 = "0x00") = true
      · rw [if_pos hz, alookup_cons, if_neg hp]
        exact htail
      · rw [if_neg hz]
        exact htail

/-- C6: first-write-wins.  For every arena with distinct node ids, the
collected storage dict maps address/slot to the normalised `had_value` of the
first explicit `storage_change` in traversal order (outer-to-inner over
nodes, left-to-right over steps) whose normalised key matches — so of two
conflicting explicit entries the earliest wins; and whenever a slot has any
explicit entry, the emitted pre-state entry is determined by that explicit
value alone (an inferred SLOAD/SSTORE observation is only used for slots with
no explicit entry). -/
theorem c6_first_write_wins (tl : List PreNode)
    (hidx : (tl.map PreNode.idx).Nodup)
    (t : List String × List (String × List (String × String)) × SecDict)
    (h : collect_from_steps tl = some t) (a k : String) :
    alookup2 t.2.1 a k =
      ((explicit_changes_for tl a).find? (fun sc => make_hex_even sc.key = k)).map
        (fun sc => make_hex_even sc.had_value) ∧
    (∀ (checksum : String → String) (bal nonceOf : String → Option Nat)
        (codeOf : String → Option String) (d : List (String × PreEntry)) (e : PreEntry)
        (sc : SChange),
      collect_pre checksum bal nonceOf codeOf tl = some d →
      alookup d a = some e →
      (explicit_changes_for tl a).find? (fun sc2 => make_hex_even sc2.key = k) = some sc →
      alookup e.storage k =
        if make_hex_even sc.had_value = "0x00" then none
        else some (make_hex_even sc.had_value)) := by
  rcases Option.map_eq_some'.mp h with ⟨acc, hacc, hval⟩
  have ht21 : t.2.1 = get_storage_keys acc.2.1 := by rw [← hval]
  have ht22 : t.2.2 = acc.2.2 := by rw [← hval]
  have hconj1 : alookup2 t.2.1 a k =
      ((explicit_changes_for tl a).find? (fun sc => make_hex_even sc.key = k)).map
        (fun sc => make_hex_even sc.had_value) := by
    rw [ht21, gsk_alookup2]
    have hch := cfs_fold_changes tl ([], [], []) acc hacc hidx
      (by intro nd _ hmem; exact absurd hmem (by simp))
      a (fun sc => decide (make_hex_even sc.key = k))
    rw [hch]
    rfl
  refine ⟨hconj1, ?_⟩
  intro checksum bal nonceOf codeOf d e sc hd he hfind
  rw [collect_pre_eq_map checksum bal nonceOf codeOf tl t h] at hd
  have hd' := (Option.some.injEq _ _).mp hd
  rw [← hd'] at he
  have he' := alookup_map_graph _ t.1 a e he
  have hval2 : alookup2 t.2.1 a k = some (make_hex_even sc.had_value) := by
    rw [hconj1, hfind]
    rfl
  cases hsd : alookup t.2.1 a with
  | none =>
    rw [alookup2, hsd] at hval2
    exact absurd hval2 (by simp)
  | some c =>
    have hck : alookup c k = some (make_hex_even sc.had_value) := by
      rw [alookup2, hsd, Option.some_bind] at hval2
      exact hval2
    have hcnodup : (c.map (fun p => p.1)).Nodup := by
      have hmem := alookup_mem hsd
      rw [ht21] at hmem
      exact gsk_values_nodup acc.2.1 (a, c) hmem
    have hstor : e.storage =
        ((match alookup t.2.2 a with
          | none => (alookup t.2.1 a).getD []
          | some kvs =>
            kvs.foldl
              (fun st (kv : String × String) =>
                if (alookup st (make_hex_even kv.1)).isSome then st
                else st ++ [(make_hex_even kv.1, make_hex_even kv.2)])
              ((alookup t.2.1 a).getD [])).filter (fun p => ¬ p.2 = "0x00")) := by
      rw [he']
      rfl
    rw [hstor, hsd]
    cases hsnd : alookup t.2.2 a with
    | none =>
      exact alookup_filter_value c hcnodup k _ hck
    | some kvs =>
      have hfill := fill_alookup_isSome kvs c k (by rw [hck]; rfl)
      have hfillnodup := fill_keys_nodup kvs c hcnodup
      have hres := alookup_filter_value _ hfillnodup k _ (hfill.trans hck)
      exact hres

/-- C6 witness arena: two nodes, each with one explicit change for the same
address and slot; the pre-state value is the earlier node's `had_value`. -/
def c6NodeA : PreNode := ⟨0, ⟨[⟨"0xc", 0, [], some ⟨"0x01", "0x02", "0x09"⟩⟩], "0xc", "0xc"⟩⟩

/-- Second, later node of the C6 witness arena, conflicting on the same
slot. -/
def c6NodeB : PreNode := ⟨1, ⟨[⟨"0xc", 0, [], some ⟨"0x01", "0x03", "0x08"⟩⟩], "0xc", "0xc"⟩⟩

/-- C6 witness: with conflicting changes (earlier pre-value "0x02", later
"0x03"), the collected storage maps the slot to "0x02". -/
theorem c6_first_write_wins_witness :
    (collect_from_steps [c6NodeA, c6NodeB]).map (fun t => alookup2 t.2.1 ("0xc") ("0x01")) =
      some (((explicit_changes_for [c6NodeA, c6NodeB] ("0xc")).find?
          (fun sc => make_hex_even sc.key = "0x01")).map
        (fun sc => make_hex_even sc.had_value)) ∧
    (collect_from_steps [c6NodeA, c6NodeB]).map (fun t => alookup2 t.2.1 ("0xc") ("0x01")) =
      some (some ("0x02")) := by
  cases ht : collect_from_steps [c6NodeA, c6NodeB] with
  | none =>
    have hs : (collect_from_steps [c6NodeA, c6NodeB]).isSome = true := by decide
    rw [ht] at hs
    exact absurd hs (by decide)
  | some t =>
    have hfst := (c6_first_write_wins [c6NodeA, c6NodeB] (by decide) t ht ("0xc") ("0x01")).1
    constructor
    · rw [Option.map_some', hfst]
    · rw [Option.map_some', hfst]
      decide

end TxReplay
